import Mathlib

/-!
Verification of the grade-tracker record store (`models.py`, `repository.py`).

The development is a shallow embedding of the Python sources:

* Python `int` is `Int`; Python `str` is `String`.
* The JSON-serializable dictionaries the program passes around are modelled as
  association lists `PyDict := List (String × FlatVal)`, where `FlatVal` covers
  the value shapes the store produces (integers, strings, lists of integers).
* The repository's in-memory state `_data` holds, in a real run, exactly the
  dictionaries produced by the entities' `to_dict`; the typed state `StoreData`
  is that state read through the entity structures, and operations on it are
  translated from `repository.py` line by line.
* Mutation of `self._data` becomes explicit state passing; `saveToJSON` becomes
  a field update recording the file's new text together with a write counter
  (so "no persistence call happened" is expressible).
* `datetime.date.today()` is an explicit `today : String` parameter.
* Python `str.lower` is modelled on the ASCII and Cyrillic ranges the program's
  data uses; all claims are insensitive to the exact case table because both
  the code translation and the specification predicates share it.
-/

namespace GradeTracker

/-! ## Python string primitives -/

/-- Model of Python `str.lower` on one character: ASCII `A`-`Z` and the
Cyrillic ranges `А`-`Я` and `Ё` map to their lowercase forms; every other
character is fixed. -/
def lowerChar (c : Char) : Char :=
  if 65 ≤ c.toNat ∧ c.toNat ≤ 90 then Char.ofNat (c.toNat + 32)
  else if 0x410 ≤ c.toNat ∧ c.toNat ≤ 0x42F then Char.ofNat (c.toNat + 32)
  else if c.toNat = 0x401 then Char.ofNat 0x451
  else c

/-- Model of Python `str.lower`. -/
def pyLower (s : String) : String := s.map lowerChar

/-- Does the list start with the given pattern?  (Helper for substring search.) -/
def beginsWith : List Char → List Char → Bool
  | [], _ => true
  | _ :: _, [] => false
  | p :: ps, c :: cs => p == c && beginsWith ps cs

/-- Does the pattern occur as a contiguous sublist? -/
def occursIn (pat : List Char) : List Char → Bool
  | [] => pat.isEmpty
  | c :: cs => beginsWith pat (c :: cs) || occursIn pat cs

/-- Model of Python `needle in hay` on strings: substring containment. -/
def pyIn (needle hay : String) : Bool := occursIn needle.data hay.data

/-! ## Flat JSON-style values and dictionaries

`FlatVal` covers every value the store writes into its dictionaries: integers,
strings, and the integer lists used for group membership.  A Python dict whose
values have these shapes is an association list; Python dicts cannot hold
duplicate keys, and `pyGet` returns the first (hence only) binding. -/

/-- A value stored in one of the program's record dictionaries. -/
inductive FlatVal where
  | int (i : Int)
  | str (s : String)
  | intList (l : List Int)
deriving DecidableEq, Repr

/-- A record dictionary: what `to_dict` produces and `from_dict` consumes. -/
def PyDict : Type := List (String × FlatVal)

instance : DecidableEq PyDict := by
  unfold PyDict
  infer_instance

/-- Model of Python `dict.get(key)` / `dict[key]` lookup. -/
def pyGet (d : PyDict) (k : String) : Option FlatVal :=
  match d with
  | [] => none
  | (k', v) :: rest => if k' = k then some v else pyGet rest k

/-- All the listed keys are present (`key in dict` for each). -/
def hasKeys (d : PyDict) (ks : List String) : Bool :=
  ks.all fun k => (pyGet d k).isSome

/-! ## Entity records (`models.py`)

Each Python class becomes a structure carrying its constructor-set attributes
at the types a real run stores in them.  `to_dict` is translated field for
field, in the source's insertion order (`Student.to_dict` and
`Teacher.to_dict` extend `User.to_dict`, so the four shared keys come first).
-/

/-- Source `Student` (`models.py`): id, full name, email, password hash, gradebook
number, group name. -/
structure Student where
  id : Int
  fullName : String
  email : String
  passwordHash : String
  graduateBookNumber : String
  group : String
deriving DecidableEq, Repr

/-- Source `Teacher` (`models.py`): id, full name, email, password hash, department,
position. -/
structure Teacher where
  id : Int
  fullName : String
  email : String
  passwordHash : String
  department : String
  position : String
deriving DecidableEq, Repr

/-- Source `Grade` (`models.py`): the eight attributes set by `Grade.__init__`. -/
structure Grade where
  id : Int
  value : Int
  assessmentType : String
  studentId : Int
  disciplineId : Int
  teacherId : Int
  comment : String
  date : String
deriving DecidableEq, Repr

/-- Source `Discipline` (`models.py`): id, name, semester, assessment type. -/
structure Discipline where
  id : Int
  name : String
  semester : Int
  assessmentType : String
deriving DecidableEq, Repr

/-- Source `Group` (`models.py`): id, name, specialty, enrollment year, member ids. -/
structure Group where
  id : Int
  name : String
  specialty : String
  enrollmentYear : Int
  studentIds : List Int
deriving DecidableEq, Repr

/-- Source `Search` (`models.py`): the four optional filters; `""` and `none` mean
"no constraint". -/
structure Search where
  studentName : String
  disciplineName : String
  semester : Option Int
  assessmentType : String
deriving DecidableEq, Repr

/-- Source `Search()` with every argument left at its default. -/
def Search.empty : Search := ⟨"", "", none, ""⟩

/-- Source `Student.to_dict` (`models.py`): the four `User` keys, then the two
student-specific keys, in insertion order. -/
def Student.to_dict (s : Student) : PyDict :=
  [("id", .int s.id), ("fullName", .str s.fullName), ("email", .str s.email),
   ("passwordHash", .str s.passwordHash),
   ("graduateBookNumber", .str s.graduateBookNumber), ("group", .str s.group)]

/-- Source `Teacher.to_dict` (`models.py`). -/
def Teacher.to_dict (t : Teacher) : PyDict :=
  [("id", .int t.id), ("fullName", .str t.fullName), ("email", .str t.email),
   ("passwordHash", .str t.passwordHash),
   ("department", .str t.department), ("position", .str t.position)]

/-- Source `Grade.to_dict` (`models.py`), keys in the source's order. -/
def Grade.to_dict (g : Grade) : PyDict :=
  [("id", .int g.id), ("value", .int g.value),
   ("assessmentType", .str g.assessmentType), ("date", .str g.date),
   ("comment", .str g.comment), ("studentId", .int g.studentId),
   ("disciplineId", .int g.disciplineId), ("teacherId", .int g.teacherId)]

/-- Source `Discipline.to_dict` (`models.py`). -/
def Discipline.to_dict (d : Discipline) : PyDict :=
  [("id", .int d.id), ("name", .str d.name), ("semester", .int d.semester),
   ("assessmentType", .str d.assessmentType)]

/-- Source `Group.to_dict` (`models.py`). -/
def Group.to_dict (g : Group) : PyDict :=
  [("id", .int g.id), ("name", .str g.name), ("specialty", .str g.specialty),
   ("enrollmentYear", .int g.enrollmentYear),
   ("studentIds", .intList g.studentIds)]

/-! ## Deserialization

Two views of `from_dict` are embedded.

The *dynamic* view (`fromDictDyn`) is the letter of the Python code: each
required key is fetched with `data[key]` (a `KeyError` — the spec's
`MissingField` — when absent), each optional key with `data.get`, and the
fetched values are stored **as they are**, with no type or range validation.
Its result types `DynStudent` … carry raw `FlatVal` fields for that reason.

The *typed* view (`ofDict`) is the same lookup logic read at the types a real
run stores, used for the persistence round-trip: it additionally refuses a
value of the wrong shape, which on `to_dict` output never happens. -/

/-- Source `KeyError` key, i.e. the spec's `MissingField` error, carrying the key. -/
structure MissingField where
  key : String
deriving DecidableEq, Repr

/-- Source `data[key]`: the value, or `MissingField` like Python's `KeyError`. -/
def pyIndex (d : PyDict) (k : String) : Except MissingField FlatVal :=
  match pyGet d k with
  | some v => .ok v
  | none => .error ⟨k⟩

/-- Source `Student.from_dict` output, fields as fetched (no validation). -/
structure DynStudent where
  id : FlatVal
  fullName : FlatVal
  email : FlatVal
  passwordHash : FlatVal
  graduateBookNumber : FlatVal
  group : FlatVal
deriving DecidableEq, Repr

/-- Source `Teacher.from_dict` output, fields as fetched. -/
structure DynTeacher where
  id : FlatVal
  fullName : FlatVal
  email : FlatVal
  passwordHash : FlatVal
  department : FlatVal
  position : FlatVal
deriving DecidableEq, Repr

/-- Source `Grade.from_dict` output, fields as fetched; `comment` and `date` carry
their documented defaults when the keys are absent. -/
structure DynGrade where
  id : FlatVal
  value : FlatVal
  assessmentType : FlatVal
  studentId : FlatVal
  disciplineId : FlatVal
  teacherId : FlatVal
  comment : FlatVal
  date : FlatVal
deriving DecidableEq, Repr

/-- Source `Discipline.from_dict` output, fields as fetched. -/
structure DynDiscipline where
  id : FlatVal
  name : FlatVal
  semester : FlatVal
  assessmentType : FlatVal
deriving DecidableEq, Repr

/-- Source `Group.from_dict` output, fields as fetched; `studentIds` defaults to the
empty list when absent. -/
structure DynGroup where
  id : FlatVal
  name : FlatVal
  specialty : FlatVal
  enrollmentYear : FlatVal
  studentIds : FlatVal
deriving DecidableEq, Repr

/-- Source `Student.from_dict` (`models.py`): six required keys, nothing optional,
no validation of the fetched values. -/
def Student.fromDictDyn (d : PyDict) : Except MissingField DynStudent := do
  let i ← pyIndex d "id"
  let fn ← pyIndex d "fullName"
  let em ← pyIndex d "email"
  let ph ← pyIndex d "passwordHash"
  let gb ← pyIndex d "graduateBookNumber"
  let gr ← pyIndex d "group"
  pure ⟨i, fn, em, ph, gb, gr⟩

/-- Source `Teacher.from_dict` (`models.py`): six required keys. -/
def Teacher.fromDictDyn (d : PyDict) : Except MissingField DynTeacher := do
  let i ← pyIndex d "id"
  let fn ← pyIndex d "fullName"
  let em ← pyIndex d "email"
  let ph ← pyIndex d "passwordHash"
  let dp ← pyIndex d "department"
  let ps ← pyIndex d "position"
  pure ⟨i, fn, em, ph, dp, ps⟩

/-- Source `Grade.from_dict` (`models.py`): six required keys; `comment` defaults to
`""` and `date` to today's date string, exactly as `data.get` plus the
constructor defaults arrange. -/
def Grade.fromDictDyn (today : String) (d : PyDict) :
    Except MissingField DynGrade := do
  let i ← pyIndex d "id"
  let v ← pyIndex d "value"
  let at' ← pyIndex d "assessmentType"
  let si ← pyIndex d "studentId"
  let di ← pyIndex d "disciplineId"
  let ti ← pyIndex d "teacherId"
  let cm := (pyGet d "comment").getD (.str "")
  let dt := (pyGet d "date").getD (.str today)
  pure ⟨i, v, at', si, di, ti, cm, dt⟩

/-- Source `Discipline.from_dict` (`models.py`): four required keys. -/
def Discipline.fromDictDyn (d : PyDict) : Except MissingField DynDiscipline := do
  let i ← pyIndex d "id"
  let nm ← pyIndex d "name"
  let sm ← pyIndex d "semester"
  let at' ← pyIndex d "assessmentType"
  pure ⟨i, nm, sm, at'⟩

/-- Source `Group.from_dict` (`models.py`): four required keys; `studentIds` defaults
to the empty list. -/
def Group.fromDictDyn (d : PyDict) : Except MissingField DynGroup := do
  let i ← pyIndex d "id"
  let nm ← pyIndex d "name"
  let sp ← pyIndex d "specialty"
  let ey ← pyIndex d "enrollmentYear"
  let si := (pyGet d "studentIds").getD (.intList [])
  pure ⟨i, nm, sp, ey, si⟩

/-- Extract an integer value (the shape a real run stores under the key). -/
def FlatVal.asInt : FlatVal → Option Int
  | .int i => some i
  | _ => none

/-- Extract a string value. -/
def FlatVal.asStr : FlatVal → Option String
  | .str s => some s
  | _ => none

/-- Extract an integer-list value. -/
def FlatVal.asIntList : FlatVal → Option (List Int)
  | .intList l => some l
  | _ => none

/-- Source `Student.from_dict` read at the stored types. -/
def Student.ofDict (d : PyDict) : Option Student := do
  let i ← (← pyGet d "id").asInt
  let fn ← (← pyGet d "fullName").asStr
  let em ← (← pyGet d "email").asStr
  let ph ← (← pyGet d "passwordHash").asStr
  let gb ← (← pyGet d "graduateBookNumber").asStr
  let gr ← (← pyGet d "group").asStr
  pure ⟨i, fn, em, ph, gb, gr⟩

/-- Source `Teacher.from_dict` read at the stored types. -/
def Teacher.ofDict (d : PyDict) : Option Teacher := do
  let i ← (← pyGet d "id").asInt
  let fn ← (← pyGet d "fullName").asStr
  let em ← (← pyGet d "email").asStr
  let ph ← (← pyGet d "passwordHash").asStr
  let dp ← (← pyGet d "department").asStr
  let ps ← (← pyGet d "position").asStr
  pure ⟨i, fn, em, ph, dp, ps⟩

/-- Source `Grade.from_dict` read at the stored types; the `comment` and `date`
defaults are those of the Python constructor. -/
def Grade.ofDict (today : String) (d : PyDict) : Option Grade := do
  let i ← (← pyGet d "id").asInt
  let v ← (← pyGet d "value").asInt
  let at' ← (← pyGet d "assessmentType").asStr
  let si ← (← pyGet d "studentId").asInt
  let di ← (← pyGet d "disciplineId").asInt
  let ti ← (← pyGet d "teacherId").asInt
  let cm ← ((pyGet d "comment").getD (.str "")).asStr
  let dt ← ((pyGet d "date").getD (.str today)).asStr
  pure ⟨i, v, at', si, di, ti, cm, dt⟩

/-- Source `Discipline.from_dict` read at the stored types. -/
def Discipline.ofDict (d : PyDict) : Option Discipline := do
  let i ← (← pyGet d "id").asInt
  let nm ← (← pyGet d "name").asStr
  let sm ← (← pyGet d "semester").asInt
  let at' ← (← pyGet d "assessmentType").asStr
  pure ⟨i, nm, sm, at'⟩

/-- Source `Group.from_dict` read at the stored types. -/
def Group.ofDict (d : PyDict) : Option Group := do
  let i ← (← pyGet d "id").asInt
  let nm ← (← pyGet d "name").asStr
  let sp ← (← pyGet d "specialty").asStr
  let ey ← (← pyGet d "enrollmentYear").asInt
  let si ← ((pyGet d "studentIds").getD (.intList [])).asIntList
  pure ⟨i, nm, sp, ey, si⟩

/-! ## The store (`repository.py`)

`GradeRepository._data` holds five collections of record dictionaries; in a
real run those are exactly `to_dict` images, so the state is modelled in the
decoded view `StoreData`.  The repository itself additionally carries the
backing file (`none` until the first write, since construction defers file
creation) and a counter of `saveToJSON` calls, so frame claims about
persistence are expressible. -/

/-- The five in-memory collections of `GradeRepository._data`. -/
structure StoreData where
  students : List Student
  teachers : List Teacher
  disciplines : List Discipline
  grades : List Grade
  groups : List Group
deriving DecidableEq, Repr

/-- The store with its persistence context: file path, in-memory data, file
content (as dictionaries; `none` = file absent), and a write-call counter. -/
structure Repo where
  filePath : String
  data : StoreData
  file : Option StoreData
  writes : Nat
deriving DecidableEq, Repr

/-- Python's `{s["id"]: s for s in collection}` followed by `.get(i)`: the
dict comprehension keeps the **last** record with a given id. -/
def lastWithId (key : α → Int) (l : List α) (i : Int) : Option α :=
  (l.filter fun x => key x == i).getLast?

/-- The student lookup `findGrades` builds once per call. -/
def resolveStudent (st : StoreData) (i : Int) : Option Student :=
  lastWithId Student.id st.students i

/-- The discipline lookup `findGrades` builds once per call. -/
def resolveDiscipline (st : StoreData) (i : Int) : Option Discipline :=
  lastWithId Discipline.id st.disciplines i

/-- Source `student.get("fullName", "")` after joining: the empty record's name is
`""`. -/
def joinedFullName (s : Option Student) : String :=
  (s.map Student.fullName).getD ""

/-- Source `discipline.get("name", "")` after joining. -/
def joinedDiscName (d : Option Discipline) : String :=
  (d.map Discipline.name).getD ""

/-- Source `discipline.get("semester")` after joining: absent stays absent. -/
def joinedSemester (d : Option Discipline) : Option Int :=
  d.map Discipline.semester

/-- The loop body of `GradeRepository.findGrades` (`repository.py`): the four
`continue` guards, translated one by one and in order.  A grade survives when
no guard fires, and is then appended through a fresh `Grade.from_dict`
deserialization (the identity in the decoded view). -/
def findGradesLoop (st : StoreData) (c : Search) : List Grade → List Grade
  | [] => []
  | gd :: rest =>
    let student := resolveStudent st gd.studentId
    let discipline := resolveDiscipline st gd.disciplineId
    if c.studentName ≠ "" ∧
        ¬ pyIn (pyLower c.studentName) (pyLower (joinedFullName student)) = true then
      findGradesLoop st c rest
    else if c.disciplineName ≠ "" ∧
        ¬ pyIn (pyLower c.disciplineName) (pyLower (joinedDiscName discipline)) = true then
      findGradesLoop st c rest
    else if ∃ sem, c.semester = some sem ∧ joinedSemester discipline ≠ some sem then
      findGradesLoop st c rest
    else if c.assessmentType ≠ "" ∧
        pyLower c.assessmentType ≠ pyLower gd.assessmentType then
      findGradesLoop st c rest
    else
      gd :: findGradesLoop st c rest

/-- Source `GradeRepository.findGrades` (`repository.py`). -/
def findGrades (st : StoreData) (c : Search) : List Grade :=
  findGradesLoop st c st.grades

/-- The specification's matching predicate, written from the claim's words:
four independent predicates — student-name substring (case-insensitive),
discipline-name substring (case-insensitive), exact semester equality,
exact assessment-type equality (case-insensitive) — each skipped when its
criteria field is unset or empty, combined by logical AND, with a missing
student or discipline joined as an empty record. -/
def specMatches (st : StoreData) (c : Search) (g : Grade) : Prop :=
  (c.studentName ≠ "" →
    pyIn (pyLower c.studentName)
      (pyLower (joinedFullName (resolveStudent st g.studentId))) = true) ∧
  (c.disciplineName ≠ "" →
    pyIn (pyLower c.disciplineName)
      (pyLower (joinedDiscName (resolveDiscipline st g.disciplineId))) = true) ∧
  (∀ sem, c.semester = some sem →
    joinedSemester (resolveDiscipline st g.disciplineId) = some sem) ∧
  (c.assessmentType ≠ "" →
    pyLower c.assessmentType = pyLower g.assessmentType)

instance (st : StoreData) (c : Search) (g : Grade) :
    Decidable (specMatches st c g) := by
  unfold specMatches
  infer_instance

/-- Source `GradeRepository.nextGradeId` (`repository.py`): `1` on an empty
collection, else Python's `max` over the ids (a left fold) plus one. -/
def nextGradeId (st : StoreData) : Int :=
  match st.grades with
  | [] => 1
  | g :: gs => (gs.foldl (fun a x => max a x.id) g.id) + 1

/-- Source `GradeRepository.saveToJSON` at the state level: records the in-memory
data as the file's new content and counts the write.  (The text actually
written is `renderStore`, defined with the persistence layer below; the file
is kept here in decoded form so that state-level claims stay first-order.) -/
def Repo.persist (r : Repo) : Repo :=
  { r with file := some r.data, writes := r.writes + 1 }

/-- Source `GradeRepository.addGrade` (`repository.py`): append the serialized grade
to the grades collection, then save. -/
def Repo.addGrade (r : Repo) (g : Grade) : Repo :=
  Repo.persist { r with data := { r.data with grades := r.data.grades ++ [g] } }

/-- Source `GradeRepository.removeGrade` (`repository.py`): rebuild the grades
collection without the matching ids, then save exactly when the length
dropped. -/
def Repo.removeGrade (r : Repo) (i : Int) : Bool × Repo :=
  let originalLen := r.data.grades.length
  let remaining := r.data.grades.filter fun g => g.id ≠ i
  let r' := { r with data := { r.data with grades := remaining } }
  if remaining.length < originalLen then (true, Repo.persist r') else (false, r')

/-- Source `GradeRepository.findGrades` as a repository operation: a pure read, the
state is returned as the method leaves it (no assignment, no save in the
source). -/
def Repo.findGradesOp (r : Repo) (c : Search) : List Grade × Repo :=
  (findGrades r.data c, r)

/-- Source `GradeRepository.nextGradeId` as a repository operation (pure read). -/
def Repo.nextGradeIdOp (r : Repo) : Int × Repo :=
  (nextGradeId r.data, r)

/-- Source `GradeRepository.getStudents` (`repository.py`): fresh `from_dict` copies
of the whole collection, the identity in the decoded view. -/
def Repo.getStudents (r : Repo) : List Student × Repo :=
  (r.data.students, r)

/-- Source `GradeRepository.getTeachers` (`repository.py`). -/
def Repo.getTeachers (r : Repo) : List Teacher × Repo :=
  (r.data.teachers, r)

/-- Source `GradeRepository.getDisciplines` (`repository.py`). -/
def Repo.getDisciplines (r : Repo) : List Discipline × Repo :=
  (r.data.disciplines, r)

/-- Source `GradeRepository.getGroups` (`repository.py`). -/
def Repo.getGroups (r : Repo) : List Group × Repo :=
  (r.data.groups, r)

/-- Source `GradeRepository.getStudentById` (`repository.py`): first match wins. -/
def Repo.getStudentById (r : Repo) (i : Int) : Option Student × Repo :=
  (r.data.students.find? (fun s => s.id == i), r)

/-- Source `GradeRepository.getDisciplineById` (`repository.py`). -/
def Repo.getDisciplineById (r : Repo) (i : Int) : Option Discipline × Repo :=
  (r.data.disciplines.find? (fun d => d.id == i), r)

/-- Source `GradeRepository.getTeacherById` (`repository.py`). -/
def Repo.getTeacherById (r : Repo) (i : Int) : Option Teacher × Repo :=
  (r.data.teachers.find? (fun t => t.id == i), r)

/-- Source `GradeRepository.getGradeById` (`repository.py`). -/
def Repo.getGradeById (r : Repo) (i : Int) : Option Grade × Repo :=
  (r.data.grades.find? (fun g => g.id == i), r)

/-! ## Domain methods used by the claims (`models.py`) -/

/-- Source `Group.addStudent` (`models.py`): append the student's id unless already
a member. -/
def Group.addStudent (g : Group) (s : Student) : Group :=
  if s.id ∈ g.studentIds then g
  else { g with studentIds := g.studentIds ++ [s.id] }

/-- The loop of `Teacher.editGrade` (`models.py`) over the list returned by
`findGrades`.  Each `g` in that list is a **fresh** object built by
`Grade.from_dict`, so the assignments `g.value = newValue; g.comment =
comment` update only that local copy (`updatedCopy` below) and never reach
`repo._data`; the `saveToJSON` call then persists the unchanged store. -/
def editGradeLoop (gradeId newValue : Int) (comment : String) (r : Repo) :
    List Grade → Bool × Repo
  | [] => (false, r)
  | g :: rest =>
    if g.id == gradeId then
      let _updatedCopy := { g with value := newValue, comment := comment }
      (true, Repo.persist r)
    else editGradeLoop gradeId newValue comment r rest

/-- Source `Teacher.editGrade` (`models.py`): search `findGrades(Search())` for the
id, mutate the returned copy, save, and report whether the id was found. -/
def Teacher.editGrade (_t : Teacher) (gradeId newValue : Int) (comment : String)
    (r : Repo) : Bool × Repo :=
  editGradeLoop gradeId newValue comment r (findGrades r.data Search.empty)

/-! ## JSON text layer (`saveToJSON` / `loadFromJSON`, `repository.py`)

`saveToJSON` writes `json.dump(self._data, f, ensure_ascii=False, indent=2)`;
`loadFromJSON` reads `json.load(f)`.  The renderer below reproduces the
`json.dump` output for the document shape the store holds — an object of five
arrays of flat record objects — character for character: two-space
indentation, `", "`-free pretty separators (item separator `","` followed by
newline and indent, key separator `": "`), `ensure_ascii=False` (non-ASCII
characters pass through verbatim), and the standard two-character escapes
plus `\u00XX` for remaining control characters.  The parser models
`json.load` restricted to that same document shape: per the specification,
content that does not parse into the expected five-collection form is fatal
at load time (`MalformedStore`), which the parser models by returning
`none`.  It is whitespace-tolerant everywhere `json.load` is. -/

/-- The persisted document: named collections of record dictionaries. -/
def TopDoc : Type := List (String × List PyDict)

/-- First-binding lookup in a parsed document (its keys are unique). -/
def topGet (t : TopDoc) (k : String) : Option (List PyDict) :=
  match t with
  | [] => none
  | (k', v) :: rest => if k' = k then some v else topGet rest k

/-- Two spaces of indentation per nesting level. -/
def ind (n : Nat) : List Char := List.replicate (2 * n) ' '

/-- Lowercase hexadecimal digit character for `n < 16`. -/
def hexDig (n : Nat) : Char :=
  if n < 10 then Char.ofNat (48 + n) else Char.ofNat (87 + n)

/-- JSON escaping of one character as `json.dump(ensure_ascii=False)` does:
two-character escapes for quote, backslash, newline, tab, carriage return,
backspace and form feed; `\u00XX` for the other control characters; everything
else (including non-ASCII) verbatim. -/
def escChar (c : Char) : List Char :=
  if c = '"' then ['\\', '"']
  else if c = '\\' then ['\\', '\\']
  else if c = '\n' then ['\\', 'n']
  else if c = '\t' then ['\\', 't']
  else if c = '\r' then ['\\', 'r']
  else if c.toNat = 8 then ['\\', 'b']
  else if c.toNat = 12 then ['\\', 'f']
  else if c.toNat < 32 then
    ['\\', 'u', '0', '0', hexDig (c.toNat / 16), hexDig (c.toNat % 16)]
  else [c]

/-- Escape a character list. -/
def escList : List Char → List Char
  | [] => []
  | c :: cs => escChar c ++ escList cs

/-- A rendered JSON string literal. -/
def renderStr (s : String) : List Char := '"' :: (escList s.data ++ ['"'])

/-- Decimal digit characters of a natural number, most significant first. -/
def natChars (n : Nat) : List Char :=
  if n < 10 then [Char.ofNat (48 + n)]
  else natChars (n / 10) ++ [Char.ofNat (48 + n % 10)]
termination_by n
decreasing_by exact Nat.div_lt_self (by omega) (by omega)

/-- Decimal characters of an integer (minus sign, then digits). -/
def intChars (i : Int) : List Char :=
  if i < 0 then '-' :: natChars i.natAbs else natChars i.natAbs

/-- Array items of an integer array, one per line at the given level. -/
def renderIntItems (lvl : Nat) : List Int → List Char
  | [] => []
  | [i] => ind lvl ++ intChars i
  | i :: is => ind lvl ++ intChars i ++ ',' :: '\n' :: renderIntItems lvl is

/-- A rendered integer array whose opening bracket sits at `lvl`. -/
def renderIntArr (lvl : Nat) (l : List Int) : List Char :=
  match l with
  | [] => ['[', ']']
  | _ => '[' :: '\n' :: (renderIntItems (lvl + 1) l ++ '\n' :: (ind lvl ++ [']']))

/-- A rendered flat value at the given level. -/
def renderFlat (lvl : Nat) : FlatVal → List Char
  | .int i => intChars i
  | .str s => renderStr s
  | .intList l => renderIntArr lvl l

/-- The members of a record object, one per line at the given level. -/
def renderEntries (lvl : Nat) : PyDict → List Char
  | [] => []
  | [(k, v)] => ind lvl ++ (renderStr k ++ ':' :: ' ' :: renderFlat lvl v)
  | (k, v) :: rest =>
      ind lvl ++ (renderStr k ++ ':' :: ' ' :: renderFlat lvl v)
        ++ ',' :: '\n' :: renderEntries lvl rest

/-- A rendered record object whose opening brace sits at `lvl`. -/
def renderDict (lvl : Nat) (d : PyDict) : List Char :=
  match d with
  | [] => ['{', '}']
  | _ => '{' :: '\n' :: (renderEntries (lvl + 1) d ++ '\n' :: (ind lvl ++ ['}']))

/-- Array items of a record array, one per line at the given level. -/
def renderDictItems (lvl : Nat) : List PyDict → List Char
  | [] => []
  | [d] => ind lvl ++ renderDict lvl d
  | d :: ds => ind lvl ++ renderDict lvl d ++ ',' :: '\n' :: renderDictItems lvl ds

/-- A rendered record array whose opening bracket sits at `lvl`. -/
def renderDictArr (lvl : Nat) (ds : List PyDict) : List Char :=
  match ds with
  | [] => ['[', ']']
  | _ => '[' :: '\n' :: (renderDictItems (lvl + 1) ds ++ '\n' :: (ind lvl ++ [']']))

/-- The five top-level members, one per line at level 1. -/
def renderTopEntries : TopDoc → List Char
  | [] => []
  | [(k, ds)] => ind 1 ++ (renderStr k ++ ':' :: ' ' :: renderDictArr 1 ds)
  | (k, ds) :: rest =>
      ind 1 ++ (renderStr k ++ ':' :: ' ' :: renderDictArr 1 ds)
        ++ ',' :: '\n' :: renderTopEntries rest

/-- The rendered document (the whole file `json.dump` writes). -/
def renderTop (t : TopDoc) : List Char :=
  match t with
  | [] => ['{', '}']
  | _ => '{' :: '\n' :: (renderTopEntries t ++ '\n' :: ['}'])

/-- Source `self._data` as the document `json.dump` receives: the five collections,
serialized record by record, in the insertion order of `__init__`. -/
def storeDicts (st : StoreData) : TopDoc :=
  [("students", st.students.map Student.to_dict),
   ("teachers", st.teachers.map Teacher.to_dict),
   ("disciplines", st.disciplines.map Discipline.to_dict),
   ("grades", st.grades.map Grade.to_dict),
   ("groups", st.groups.map Group.to_dict)]

/-- Source `GradeRepository.saveToJSON` (`repository.py`): the exact file text. -/
def saveToJSON (st : StoreData) : String := String.mk (renderTop (storeDicts st))

/-! ### The parser -/

/-- JSON whitespace. -/
def isWsChar (c : Char) : Bool := c == ' ' || c == '\n' || c == '\t' || c == '\r'

/-- Drop leading whitespace. -/
def skipWs : List Char → List Char
  | [] => []
  | c :: cs => if isWsChar c then skipWs cs else c :: cs

/-- An ASCII decimal digit. -/
def isDigitCh (c : Char) : Bool := 48 ≤ c.toNat && c.toNat ≤ 57

/-- Consume a run of digits, accumulating their value. -/
def digitsAcc (acc : Nat) : List Char → Nat × List Char
  | [] => (acc, [])
  | c :: cs =>
    if isDigitCh c then digitsAcc (acc * 10 + (c.toNat - 48)) cs else (acc, c :: cs)

/-- Parse a natural number (at least one digit required). -/
def parseNat : List Char → Option (Nat × List Char)
  | [] => none
  | c :: cs => if isDigitCh c then some (digitsAcc 0 (c :: cs)) else none

/-- Parse an integer (optional minus sign). -/
def parseInt : List Char → Option (Int × List Char)
  | [] => none
  | c :: cs =>
    if c = '-' then (parseNat cs).map fun p => (-(p.1 : Int), p.2)
    else (parseNat (c :: cs)).map fun p => ((p.1 : Int), p.2)

/-- Value of a hexadecimal digit character. -/
def hexDigVal (c : Char) : Option Nat :=
  if 48 ≤ c.toNat ∧ c.toNat ≤ 57 then some (c.toNat - 48)
  else if 97 ≤ c.toNat ∧ c.toNat ≤ 102 then some (c.toNat - 87)
  else if 65 ≤ c.toNat ∧ c.toNat ≤ 70 then some (c.toNat - 55)
  else none

/-- Undo a two-character escape. -/
def unescCh (c : Char) : Option Char :=
  if c = '"' then some '"'
  else if c = '\\' then some '\\'
  else if c = '/' then some '/'
  else if c = 'n' then some '\n'
  else if c = 't' then some '\t'
  else if c = 'r' then some '\r'
  else if c = 'b' then some (Char.ofNat 8)
  else if c = 'f' then some (Char.ofNat 12)
  else none

/-- Parse a string body up to the closing quote, undoing escapes. -/
def strBody : List Char → Option (List Char × List Char)
  | [] => none
  | '"' :: rest => some ([], rest)
  | '\\' :: 'u' :: a :: b :: c :: d :: rest =>
      match hexDigVal a, hexDigVal b, hexDigVal c, hexDigVal d with
      | some va, some vb, some vc, some vd =>
          (strBody rest).map fun p =>
            (Char.ofNat (((va * 16 + vb) * 16 + vc) * 16 + vd) :: p.1, p.2)
      | _, _, _, _ => none
  | '\\' :: e :: rest =>
      match unescCh e with
      | some ch => (strBody rest).map fun p => (ch :: p.1, p.2)
      | none => none
  | c :: rest => (strBody rest).map fun p => (c :: p.1, p.2)

/-- Parse a string literal (opening quote included). -/
def parseStrLit : List Char → Option (String × List Char)
  | '"' :: rest => (strBody rest).map fun p => (String.mk p.1, p.2)
  | _ => none

/-- Parse the items of an integer array after its opening bracket, closing
bracket included.  The fuel bounds the item count. -/
def parseIntItems (fuel : Nat) (cs : List Char) : Option (List Int × List Char) :=
  match fuel with
  | 0 => none
  | fuel + 1 =>
    match skipWs cs with
    | [] => none
    | c :: r =>
      if c = ']' then some ([], r)
      else
        match parseInt (c :: r) with
        | none => none
        | some (i, r1) =>
          match skipWs r1 with
          | ',' :: r2 => (parseIntItems fuel r2).map fun p => (i :: p.1, p.2)
          | ']' :: r2 => some ([i], r2)
          | _ => none

/-- Parse an integer array. -/
def parseIntArr (fuel : Nat) (cs : List Char) : Option (List Int × List Char) :=
  match cs with
  | '[' :: r => parseIntItems fuel r
  | _ => none

/-- Parse one flat value (leading whitespace already skipped). -/
def parseFlat (fuel : Nat) (cs : List Char) : Option (FlatVal × List Char) :=
  match cs with
  | [] => none
  | c :: r =>
    if c = '"' then (strBody r).map fun p => (FlatVal.str (String.mk p.1), p.2)
    else if c = '[' then
      (parseIntArr fuel (c :: r)).map fun p => (FlatVal.intList p.1, p.2)
    else if c = '-' ∨ isDigitCh c then
      (parseInt (c :: r)).map fun p => (FlatVal.int p.1, p.2)
    else none

/-- Parse the members of a record object after its opening brace, closing
brace included. -/
def parseEntries (fuel : Nat) (cs : List Char) : Option (PyDict × List Char) :=
  match fuel with
  | 0 => none
  | fuel + 1 =>
    match skipWs cs with
    | [] => none
    | c :: r =>
      if c = '}' then some (([] : PyDict), r)
      else
        match parseStrLit (c :: r) with
        | none => none
        | some (k, r1) =>
          match skipWs r1 with
          | ':' :: r2 =>
            match parseFlat fuel (skipWs r2) with
            | none => none
            | some (v, r3) =>
              match skipWs r3 with
              | ',' :: r4 => (parseEntries fuel r4).map fun p => ((k, v) :: p.1, p.2)
              | '}' :: r4 => some ([(k, v)], r4)
              | _ => none
          | _ => none

/-- Parse a record object. -/
def parseRec (fuel : Nat) (cs : List Char) : Option (PyDict × List Char) :=
  match cs with
  | '{' :: r => parseEntries fuel r
  | _ => none

/-- Parse the items of a record array after its opening bracket. -/
def parseRecItems (fuel : Nat) (cs : List Char) :
    Option (List PyDict × List Char) :=
  match fuel with
  | 0 => none
  | fuel + 1 =>
    match skipWs cs with
    | [] => none
    | c :: r =>
      if c = ']' then some ([], r)
      else
        match parseRec fuel (c :: r) with
        | none => none
        | some (d, r1) =>
          match skipWs r1 with
          | ',' :: r2 => (parseRecItems fuel r2).map fun p => (d :: p.1, p.2)
          | ']' :: r2 => some ([d], r2)
          | _ => none

/-- Parse a record array. -/
def parseRecArr (fuel : Nat) (cs : List Char) :
    Option (List PyDict × List Char) :=
  match cs with
  | '[' :: r => parseRecItems fuel r
  | _ => none

/-- Parse the members of the top-level object after its opening brace. -/
def parseTopEntries (fuel : Nat) (cs : List Char) :
    Option (TopDoc × List Char) :=
  match fuel with
  | 0 => none
  | fuel + 1 =>
    match skipWs cs with
    | [] => none
    | c :: r =>
      if c = '}' then some (([] : TopDoc), r)
      else
        match parseStrLit (c :: r) with
        | none => none
        | some (k, r1) =>
          match skipWs r1 with
          | ':' :: r2 =>
            match parseRecArr fuel (skipWs r2) with
            | none => none
            | some (ds, r3) =>
              match skipWs r3 with
              | ',' :: r4 =>
                  (parseTopEntries fuel r4).map fun p => ((k, ds) :: p.1, p.2)
              | '}' :: r4 => some ([(k, ds)], r4)
              | _ => none
          | _ => none

/-- Parse the document (the top-level object). -/
def parseTop (fuel : Nat) (cs : List Char) : Option (TopDoc × List Char) :=
  match skipWs cs with
  | '{' :: r => parseTopEntries fuel r
  | _ => none

/-- The accumulator step a digit run folds with. -/
def digStep : Nat → Char → Nat := fun a c => a * 10 + (c.toNat - 48)

/-- The input after a rendered number must not begin with another digit. -/
def nonDigitHead : List Char → Bool
  | [] => true
  | c :: _ => !isDigitCh c

/-! ### Fuel measures

The parser burns one unit of fuel per parsed item.  These measures bound the
fuel a document needs; each unit is matched by at least one rendered
character, so `text.length + 1` is always enough. -/

/-- Fuel needed for one flat value. -/
def flatFuel : FlatVal → Nat
  | .intList l => l.length + 1
  | _ => 1

/-- Fuel needed for a record object's members. -/
def entriesFuel : PyDict → Nat
  | [] => 0
  | (_, v) :: rest => 1 + flatFuel v + entriesFuel rest

/-- Fuel needed for a record array's items. -/
def recsFuel : List PyDict → Nat
  | [] => 0
  | d :: ds => 1 + entriesFuel d + recsFuel ds

/-- Fuel needed for the top-level members. -/
def topFuel : TopDoc → Nat
  | [] => 0
  | (_, ds) :: rest => 1 + recsFuel ds + topFuel rest

/-! ### Decoding the parsed document back into a typed state -/

/-- Decode every record of a collection, failing if any record fails. -/
def decodeAll (dec : PyDict → Option α) : List PyDict → Option (List α)
  | [] => some []
  | d :: ds => do
      let x ← dec d
      let xs ← decodeAll dec ds
      pure (x :: xs)

/-- Read a parsed document as a store state: all five collections must be
present (anything else is the spec's fatal `MalformedStore`), and every
record must decode at its stored types. -/
def decodeStore (today : String) (t : TopDoc) : Option StoreData := do
  let sts ← topGet t "students"
  let tch ← topGet t "teachers"
  let dsc ← topGet t "disciplines"
  let grd ← topGet t "grades"
  let grp ← topGet t "groups"
  let students ← decodeAll Student.ofDict sts
  let teachers ← decodeAll Teacher.ofDict tch
  let disciplines ← decodeAll Discipline.ofDict dsc
  let grades ← decodeAll (Grade.ofDict today) grd
  let groups ← decodeAll Group.ofDict grp
  pure ⟨students, teachers, disciplines, grades, groups⟩

/-- Source `GradeRepository.loadFromJSON` (`repository.py`): parse the file text
(`json.load`, which requires the document to end after trailing whitespace)
and read it as a store state. -/
def loadFromJSON (today : String) (text : String) : Option StoreData := do
  let (t, rest) ← parseTop (text.data.length + 1) text.data
  if (skipWs rest).isEmpty then decodeStore today t else none

/-! ## Concrete sample data (for witnesses and counterexamples) -/

/-- A sample grade with id 1. -/
def gradeA : Grade := ⟨1, 5, "exam", 1, 1, 1, "ok", "2024-06-15"⟩

/-- A second sample grade that **also** bears id 1. -/
def gradeB : Grade := ⟨1, 4, "test", 2, 2, 1, "", "2024-06-18"⟩

/-- A sample grade with id 2. -/
def gradeC : Grade := ⟨2, 3, "exam", 1, 1, 1, "", "2024-06-19"⟩

/-- A sample grade with id 7. -/
def gradeD : Grade := ⟨7, 5, "coursework", 2, 2, 1, "", "2024-06-20"⟩

/-- A store whose grades collection has two records with the same id. -/
def repoDup : Repo := ⟨"data.json", ⟨[], [], [], [gradeA, gradeB], []⟩, none, 0⟩

/-- A store with two distinct grade ids, 2 and 7. -/
def repoTwo : Repo := ⟨"data.json", ⟨[], [], [], [gradeC, gradeD], []⟩, none, 0⟩

/-- The empty store state. -/
def storeEmpty : StoreData := ⟨[], [], [], [], []⟩

/-- A store holding one grade with id 1 and value 5. -/
def repoEdit : Repo := ⟨"data.json", ⟨[], [], [], [gradeA], []⟩, none, 0⟩

/-- A sample teacher. -/
def teacherA : Teacher := ⟨1, "Ivanova E. R.", "ivanova@uni.ru", "th1", "SE", "docent"⟩

/-- A sample student with id 9. -/
def studentA : Student := ⟨9, "Petrov A. B.", "petrov@uni.ru", "h9", "23-009", "SAU-23"⟩

/-- A sample group whose membership list is `[4, 5]`. -/
def groupA : Group := ⟨1, "SAU-23", "automation", 2023, [4, 5]⟩

/-- A grade dictionary with all six required keys, an out-of-range value 7,
and no optional `comment`/`date` keys. -/
def dictGradeA : PyDict :=
  [("id", .int 4), ("value", .int 7), ("assessmentType", .str "exam"),
   ("studentId", .int 1), ("disciplineId", .int 1), ("teacherId", .int 1)]

/-- The grade `dictGradeA` deserializes to (defaults substituted). -/
def dynGradeA : DynGrade :=
  ⟨.int 4, .int 7, .str "exam", .int 1, .int 1, .int 1, .str "",
   .str "2024-01-01"⟩

/-- A student dictionary with all six required keys (Cyrillic full name). -/
def dictStudentA : PyDict :=
  [("id", .int 1), ("fullName", .str "Мария"), ("email", .str "m@uni.ru"),
   ("passwordHash", .str "h"), ("graduateBookNumber", .str "23-001"),
   ("group", .str "G-1")]

/-! ## Helper lemmas -/

/-- Membership in the `findGrades` loop output: exactly the input records that
fire none of the four `continue` guards, i.e. that satisfy `specMatches`. -/
theorem mem_findGradesLoop (st : StoreData) (c : Search) :
    ∀ (l : List Grade) (g : Grade),
      g ∈ findGradesLoop st c l ↔ g ∈ l ∧ specMatches st c g := by
  intro l
  induction l with
  | nil => simp [findGradesLoop]
  | cons gd rest ih =>
    intro g
    simp only [findGradesLoop]
    split_ifs with h1 h2 h3 h4
    · rw [ih]
      simp only [List.mem_cons]
      constructor
      · rintro ⟨hg, hm⟩
        exact ⟨Or.inr hg, hm⟩
      · rintro ⟨hg | hg, hm⟩
        · subst hg
          exact absurd (hm.1 h1.1) h1.2
        · exact ⟨hg, hm⟩
    · rw [ih]
      simp only [List.mem_cons]
      constructor
      · rintro ⟨hg, hm⟩
        exact ⟨Or.inr hg, hm⟩
      · rintro ⟨hg | hg, hm⟩
        · subst hg
          exact absurd (hm.2.1 h2.1) h2.2
        · exact ⟨hg, hm⟩
    · rw [ih]
      simp only [List.mem_cons]
      constructor
      · rintro ⟨hg, hm⟩
        exact ⟨Or.inr hg, hm⟩
      · rintro ⟨hg | hg, hm⟩
        · subst hg
          obtain ⟨sem, hsem, hne⟩ := h3
          exact absurd (hm.2.2.1 sem hsem) hne
        · exact ⟨hg, hm⟩
    · rw [ih]
      simp only [List.mem_cons]
      constructor
      · rintro ⟨hg, hm⟩
        exact ⟨Or.inr hg, hm⟩
      · rintro ⟨hg | hg, hm⟩
        · subst hg
          exact absurd (hm.2.2.2 h4.1) h4.2
        · exact ⟨hg, hm⟩
    · push_neg at h1 h2 h3 h4
      have hmd : specMatches st c gd := by
        refine ⟨?_, ?_, ?_, ?_⟩
        · intro hs
          by_contra hno
          exact absurd (h1 hs) hno
        · intro hs
          by_contra hno
          exact absurd (h2 hs) hno
        · intro sem hsem
          exact h3 sem hsem
        · intro hs
          exact h4 hs
      simp only [List.mem_cons, ih]
      constructor
      · rintro (hg | ⟨hg, hm⟩)
        · exact ⟨Or.inl hg, hg ▸ hmd⟩
        · exact ⟨Or.inr hg, hm⟩
      · rintro ⟨hg | hg, hm⟩
        · exact Or.inl hg
        · exact Or.inr ⟨hg, hm⟩

/-- With no filters set, no `continue` guard can fire, so the loop copies its
input unchanged. -/
theorem findGradesLoop_no_filter (st : StoreData) :
    ∀ l : List Grade, findGradesLoop st Search.empty l = l := by
  intro l
  induction l with
  | nil => rfl
  | cons gd rest ih =>
    simp only [findGradesLoop]
    rw [if_neg (by simp [Search.empty]), if_neg (by simp [Search.empty]),
        if_neg (by simp [Search.empty]), if_neg (by simp [Search.empty]), ih]

/-- A left `max` fold over a list starts at or above its seed, bounds every
element, and is attained by the seed or an element. -/
theorem foldl_max_facts :
    ∀ (l : List Int) (a : Int),
      a ≤ l.foldl max a ∧ (∀ x ∈ l, x ≤ l.foldl max a) ∧
        (l.foldl max a = a ∨ l.foldl max a ∈ l) := by
  intro l
  induction l with
  | nil => simp
  | cons b t ih =>
    intro a
    simp only [List.foldl_cons]
    obtain ⟨h1, h2, h3⟩ := ih (max a b)
    refine ⟨le_trans (le_max_left a b) h1, ?_, ?_⟩
    · intro x hx
      rcases List.mem_cons.mp hx with hx | hx
      · subst hx
        exact le_trans (le_max_right _ _) h1
      · exact h2 x hx
    · rcases h3 with h3 | h3
      · rcases max_choice a b with hab | hab
        · exact Or.inl (by rw [h3, hab])
        · exact Or.inr (by rw [h3, hab]; exact List.mem_cons_self b t)
      · exact Or.inr (List.mem_cons_of_mem b h3)

/-- Dropping the records that bear an id removes exactly one record when the
ids are pairwise distinct and the id occurs. -/
theorem filter_ne_id_length (i : Int) :
    ∀ l : List Grade, (l.map Grade.id).Nodup → (∃ g ∈ l, g.id = i) →
      (l.filter fun g => g.id ≠ i).length + 1 = l.length := by
  intro l
  induction l with
  | nil => rintro _ ⟨g, hg, _⟩; exact absurd hg (List.not_mem_nil g)
  | cons a t ih =>
    rintro hnd ⟨g, hg, hgi⟩
    rw [List.map_cons, List.nodup_cons] at hnd
    by_cases ha : a.id = i
    · have ht : (t.filter fun g => g.id ≠ i) = t := by
        apply List.filter_eq_self.mpr
        intro x hx
        simp only [ne_eq, decide_eq_true_eq]
        intro hxi
        apply hnd.1
        rw [ha, ← hxi]
        exact List.mem_map_of_mem Grade.id hx
      rw [List.filter_cons, if_neg (by simp [ha]), ht, List.length_cons]
    · rcases List.mem_cons.mp hg with hg' | hg'
      · exact absurd (hg' ▸ hgi) ha
      · have := ih hnd.2 ⟨g, hg', hgi⟩
        simp only [List.filter_cons, List.length_cons]
        rw [if_pos (by simpa using ha)]
        simp only [List.length_cons]
        omega

/-! ## JSON codec lemmas -/

/-- Rebuilding a string from its characters is the identity. -/
theorem mkData (s : String) : String.mk s.data = s := rfl

/-- Source `skipWs` passes over any all-whitespace prefix. -/
theorem skipWs_ws_append (ws : List Char) (h : ∀ c ∈ ws, isWsChar c = true)
    (cs : List Char) : skipWs (ws ++ cs) = skipWs cs := by
  induction ws with
  | nil => rfl
  | cons c t ih =>
    have hc := h c (List.mem_cons_self c t)
    simp only [List.cons_append, skipWs, hc, if_true]
    exact ih fun x hx => h x (List.mem_cons_of_mem c hx)

/-- Source `skipWs` stops at a non-whitespace head. -/
theorem skipWs_not_ws (c : Char) (cs : List Char) (h : isWsChar c = false) :
    skipWs (c :: cs) = c :: cs := by
  simp [skipWs, h]

/-- Indentation is all whitespace. -/
theorem ind_all_ws (n : Nat) : ∀ c ∈ ind n, isWsChar c = true := by
  intro c hc
  rw [ind] at hc
  have := List.eq_of_mem_replicate hc
  subst this
  decide

/-- Source `skipWs` after a whitespace prefix lands on a given non-whitespace head. -/
theorem skipWs_to_head (ws : List Char) (hws : ∀ c ∈ ws, isWsChar c = true)
    (c0 : Char) (t0 : List Char) (hc0 : isWsChar c0 = false) :
    skipWs (ws ++ (c0 :: t0)) = c0 :: t0 := by
  rw [skipWs_ws_append ws hws, skipWs_not_ws _ _ hc0]

/-- The decimal digit character of `k < 10`: its code, digit-ness, value. -/
theorem digitCharFacts (k : Nat) (h : k < 10) :
    (Char.ofNat (48 + k)).toNat = 48 + k ∧
      isDigitCh (Char.ofNat (48 + k)) = true ∧
      (Char.ofNat (48 + k)).toNat - 48 = k := by
  interval_cases k <;> exact ⟨by decide, by decide, by decide⟩

/-- A digit character is none of the JSON structural characters and is not
whitespace. -/
theorem digit_props (c : Char) (h : isDigitCh c = true) :
    c ≠ '-' ∧ c ≠ '"' ∧ c ≠ '[' ∧ c ≠ ']' ∧ c ≠ '}' ∧ c ≠ '{' ∧ c ≠ ',' ∧
      c ≠ ':' ∧ isWsChar c = false := by
  refine ⟨?_, ?_, ?_, ?_, ?_, ?_, ?_, ?_, ?_⟩
  all_goals first
    | (rintro rfl; revert h; decide)
    | (simp only [isWsChar, Bool.or_eq_false_iff, beq_eq_false_iff_ne]
       refine ⟨⟨⟨?_, ?_⟩, ?_⟩, ?_⟩ <;> (rintro rfl; revert h; decide))

/-- Last-digit-first unfolding of the decimal renderer. -/
theorem natChars_unfold (n : Nat) :
    natChars n
      = (if n < 10 then [] else natChars (n / 10)) ++ [Char.ofNat (48 + n % 10)] := by
  rw [natChars]
  by_cases h : n < 10
  · simp [h, Nat.mod_eq_of_lt h]
  · simp [h]

/-- A rendered number has at least one digit. -/
theorem natChars_ne_nil (n : Nat) : natChars n ≠ [] := by
  rw [natChars_unfold]
  simp

/-- Every character of a rendered number is a digit. -/
theorem natChars_all_digits (n : Nat) : ∀ c ∈ natChars n, isDigitCh c = true := by
  induction n using Nat.strong_induction_on with
  | _ n ih =>
    rw [natChars_unfold]
    intro c hc
    rcases List.mem_append.mp hc with hc | hc
    · by_cases h : n < 10
      · simp [h] at hc
      · exact ih (n / 10) (Nat.div_lt_self (by omega) (by omega)) c
          (by simpa [h] using hc)
    · rw [List.mem_singleton] at hc
      subst hc
      exact (digitCharFacts (n % 10) (Nat.mod_lt _ (by omega))).2.1

/-- Folding the digit characters of `n` recovers `n`. -/
theorem natChars_foldl (n : Nat) : (natChars n).foldl digStep 0 = n := by
  induction n using Nat.strong_induction_on with
  | _ n ih =>
    rw [natChars_unfold, List.foldl_append]
    by_cases h : n < 10
    · have hm : n % 10 = n := Nat.mod_eq_of_lt h
      simp only [if_pos h, List.foldl_nil, List.foldl_cons]
      show digStep 0 _ = n
      simp [digStep, hm, (digitCharFacts n h).2.2]
    · simp only [if_neg h, List.foldl_cons, List.foldl_nil]
      rw [ih (n / 10) (Nat.div_lt_self (by omega) (by omega))]
      show digStep (n / 10) _ = n
      have hv := (digitCharFacts (n % 10) (Nat.mod_lt _ (by omega))).2.2
      simp only [digStep, hv]
      omega

/-- Source `digitsAcc` consumes exactly a digit run, folding it onto the seed. -/
theorem digitsAcc_run :
    ∀ (ds : List Char) (acc : Nat) (rest : List Char),
      (∀ c ∈ ds, isDigitCh c = true) → nonDigitHead rest = true →
      digitsAcc acc (ds ++ rest) = (ds.foldl digStep acc, rest) := by
  intro ds
  induction ds with
  | nil =>
    intro acc rest _ hrest
    cases rest with
    | nil => rfl
    | cons c t =>
      simp only [nonDigitHead, Bool.not_eq_true'] at hrest
      simp [digitsAcc, hrest]
  | cons c cs ih =>
    intro acc rest hds hrest
    have hc := hds c (List.mem_cons_self c cs)
    simp only [List.cons_append, digitsAcc, hc, if_true, List.append_eq]
    rw [ih _ rest (fun x hx => hds x (List.mem_cons_of_mem c hx)) hrest]
    rfl

/-- The number codec round-trip on naturals. -/
theorem parseNat_render (n : Nat) (rest : List Char)
    (hrest : nonDigitHead rest = true) :
    parseNat (natChars n ++ rest) = some (n, rest) := by
  obtain ⟨c, t, hct⟩ : ∃ c t, natChars n = c :: t := by
    cases h : natChars n with
    | nil => exact absurd h (natChars_ne_nil n)
    | cons c t => exact ⟨c, t, rfl⟩
  have hdig : ∀ x ∈ natChars n, isDigitCh x = true := natChars_all_digits n
  have hc : isDigitCh c = true := hdig c (by rw [hct]; exact List.mem_cons_self c t)
  rw [hct, List.cons_append]
  simp only [parseNat, hc, if_true]
  rw [← List.cons_append, ← hct, digitsAcc_run _ 0 rest hdig hrest, natChars_foldl]

/-- The number codec round-trip on integers. -/
theorem parseInt_render (i : Int) (rest : List Char)
    (hrest : nonDigitHead rest = true) :
    parseInt (intChars i ++ rest) = some (i, rest) := by
  by_cases hneg : i < 0
  · rw [intChars, if_pos hneg, List.cons_append]
    simp only [parseInt, if_pos rfl]
    have habs : -(i.natAbs : Int) = i := by omega
    rw [parseNat_render _ _ hrest, Option.map_some', habs]
    simp
  · rw [intChars, if_neg hneg]
    obtain ⟨c, t, hct⟩ : ∃ c t, natChars i.natAbs = c :: t := by
      cases h : natChars i.natAbs with
      | nil => exact absurd h (natChars_ne_nil _)
      | cons c t => exact ⟨c, t, rfl⟩
    have hc : isDigitCh c = true :=
      natChars_all_digits _ c (by rw [hct]; exact List.mem_cons_self c t)
    rw [hct, List.cons_append]
    simp only [parseInt, if_neg (digit_props c hc).1]
    have habs : (i.natAbs : Int) = i := by omega
    rw [← List.cons_append, ← hct, parseNat_render _ _ hrest,
      Option.map_some', habs]

/-- The head of a rendered integer: non-whitespace, non-structural, and a
legal number start. -/
theorem intChars_head (i : Int) :
    ∃ c t, intChars i = c :: t ∧ isWsChar c = false ∧ c ≠ '"' ∧ c ≠ '[' ∧
      c ≠ ']' ∧ c ≠ '}' ∧ (c = '-' ∨ isDigitCh c = true) := by
  by_cases hneg : i < 0
  · exact ⟨'-', natChars i.natAbs, by rw [intChars, if_pos hneg], by decide,
      by decide, by decide, by decide, by decide, Or.inl rfl⟩
  · obtain ⟨c, t, hct⟩ : ∃ c t, natChars i.natAbs = c :: t := by
      cases h : natChars i.natAbs with
      | nil => exact absurd h (natChars_ne_nil _)
      | cons c t => exact ⟨c, t, rfl⟩
    have hc : isDigitCh c = true :=
      natChars_all_digits _ c (by rw [hct]; exact List.mem_cons_self c t)
    have hp := digit_props c hc
    exact ⟨c, t, by rw [intChars, if_neg hneg, hct], hp.2.2.2.2.2.2.2.2,
      hp.2.1, hp.2.2.1, hp.2.2.2.1, hp.2.2.2.2.1, Or.inr hc⟩

/-- Hexadecimal digit characters carry their value. -/
theorem hexDigVal_hexDig (k : Nat) (h : k < 16) : hexDigVal (hexDig k) = some k := by
  interval_cases k <;> decide

/-- Parsing one escaped character undoes the escaping. -/
theorem strBody_esc (c : Char) (rest : List Char) :
    strBody (escChar c ++ rest) = (strBody rest).map fun p => (c :: p.1, p.2) := by
  by_cases h1 : c = '"'
  · subst h1; rfl
  by_cases h2 : c = '\\'
  · subst h2; rfl
  by_cases h3 : c = '\n'
  · subst h3; rfl
  by_cases h4 : c = '\t'
  · subst h4; rfl
  by_cases h5 : c = '\r'
  · subst h5; rfl
  by_cases h6 : c.toNat = 8
  · have hc : c = Char.ofNat 8 := by rw [← h6, Char.ofNat_toNat]
    subst hc; rfl
  by_cases h7 : c.toNat = 12
  · have hc : c = Char.ofNat 12 := by rw [← h7, Char.ofNat_toNat]
    subst hc; rfl
  by_cases h8 : c.toNat < 32
  · simp only [escChar, if_neg h1, if_neg h2, if_neg h3, if_neg h4, if_neg h5,
      if_neg h6, if_neg h7, if_pos h8, List.cons_append]
    have hv0 : hexDigVal '0' = some 0 := by decide
    have hv3 : hexDigVal (hexDig (c.toNat / 16)) = some (c.toNat / 16) :=
      hexDigVal_hexDig _ (by omega)
    have hv4 : hexDigVal (hexDig (c.toNat % 16)) = some (c.toNat % 16) :=
      hexDigVal_hexDig _ (by omega)
    simp only [strBody, hv0, hv3, hv4]
    have harith : ((0 * 16 + 0) * 16 + c.toNat / 16) * 16 + c.toNat % 16
        = c.toNat := by omega
    simp only [harith, Char.ofNat_toNat, List.nil_append]
  · simp only [escChar, if_neg h1, if_neg h2, if_neg h3, if_neg h4, if_neg h5,
      if_neg h6, if_neg h7, if_neg h8, List.cons_append, List.nil_append]
    rw [strBody.eq_def]
    simp [h1, h2]

/-- Parsing an escaped run stops exactly at the closing quote. -/
theorem strBody_escList (l : List Char) (rest : List Char) :
    strBody (escList l ++ '"' :: rest) = some (l, rest) := by
  induction l with
  | nil => rfl
  | cons c cs ih =>
    rw [escList, List.append_assoc, strBody_esc, ih]
    rfl

/-- The string codec round-trip. -/
theorem parseStrLit_render (s : String) (rest : List Char) :
    parseStrLit (renderStr s ++ rest) = some (s, rest) := by
  have hshape : renderStr s ++ rest = '"' :: (escList s.data ++ ('"' :: rest)) := by
    simp [renderStr]
  rw [hshape]
  simp only [parseStrLit]
  rw [strBody_escList]
  rfl

/-- A rendered natural number is nonempty. -/
theorem natChars_len (n : Nat) : 1 ≤ (natChars n).length :=
  List.length_pos.mpr (natChars_ne_nil n)

/-- A rendered integer is nonempty. -/
theorem intChars_len (i : Int) : 1 ≤ (intChars i).length := by
  rw [intChars]
  by_cases h : i < 0
  · simp [h]
  · simp only [if_neg h]
    exact natChars_len _

/-- A rendered string literal has its two quotes. -/
theorem renderStr_len (s : String) : 2 ≤ (renderStr s).length := by
  simp [renderStr]

/-- Rendered integer items are at least one character per item. -/
theorem renderIntItems_len (lvl : Nat) :
    ∀ l : List Int, l.length ≤ (renderIntItems lvl l).length := by
  intro l
  induction l with
  | nil => simp [renderIntItems]
  | cons i is ih =>
    cases is with
    | nil =>
      have := intChars_len i
      simp only [renderIntItems, List.length_append, List.length_cons,
        List.length_nil]
      omega
    | cons j js =>
      have h1 := intChars_len i
      simp only [renderIntItems, List.length_append, List.length_cons] at ih ⊢
      omega

/-- A rendered flat value covers its fuel. -/
theorem renderFlat_len (lvl : Nat) (v : FlatVal) :
    flatFuel v ≤ (renderFlat lvl v).length := by
  cases v with
  | int i => simpa [renderFlat, flatFuel] using intChars_len i
  | str s =>
    have := renderStr_len s
    simp only [renderFlat, flatFuel]
    omega
  | intList l =>
    cases l with
    | nil => simp [renderFlat, renderIntArr, flatFuel]
    | cons i is =>
      have := renderIntItems_len (lvl + 1) (i :: is)
      simp only [renderFlat, renderIntArr, flatFuel, List.length_cons,
        List.length_append, List.length_nil] at this ⊢
      omega

/-- Rendered record members cover their fuel. -/
theorem renderEntries_len (lvl : Nat) :
    ∀ d : PyDict, entriesFuel d ≤ (renderEntries lvl d).length := by
  intro d
  induction d with
  | nil => simp [renderEntries, entriesFuel]
  | cons kv rest ih =>
    obtain ⟨k, v⟩ := kv
    cases rest with
    | nil =>
      have h1 := renderFlat_len lvl v
      simp only [renderEntries, entriesFuel, List.length_append,
        List.length_cons]
      omega
    | cons kv2 rest2 =>
      have h1 := renderFlat_len lvl v
      simp only [renderEntries, entriesFuel, List.length_append,
        List.length_cons] at ih ⊢
      omega

/-- A rendered record object covers its fuel plus one. -/
theorem renderDict_len (lvl : Nat) (d : PyDict) :
    entriesFuel d + 1 ≤ (renderDict lvl d).length := by
  cases d with
  | nil => simp [renderDict, entriesFuel]
  | cons kv rest =>
    have := renderEntries_len (lvl + 1) (kv :: rest)
    simp only [renderDict, List.length_cons, List.length_append,
      List.length_nil] at this ⊢
    omega

/-- Rendered record items cover their fuel. -/
theorem renderDictItems_len (lvl : Nat) :
    ∀ ds : List PyDict, recsFuel ds ≤ (renderDictItems lvl ds).length := by
  intro ds
  induction ds with
  | nil => simp [renderDictItems, recsFuel]
  | cons d rest ih =>
    cases rest with
    | nil =>
      have := renderDict_len lvl d
      simp only [renderDictItems, recsFuel, List.length_append] at this ⊢
      omega
    | cons d2 rest2 =>
      have h1 := renderDict_len lvl d
      simp only [renderDictItems, recsFuel, List.length_append,
        List.length_cons] at h1 ih ⊢
      omega

/-- A rendered record array covers its fuel plus one. -/
theorem renderDictArr_len (lvl : Nat) (ds : List PyDict) :
    recsFuel ds + 1 ≤ (renderDictArr lvl ds).length := by
  cases ds with
  | nil => simp [renderDictArr, recsFuel]
  | cons d rest =>
    have := renderDictItems_len (lvl + 1) (d :: rest)
    simp only [renderDictArr, List.length_cons, List.length_append,
      List.length_nil] at this ⊢
    omega

/-- Rendered top-level members cover their fuel. -/
theorem renderTopEntries_len :
    ∀ t : TopDoc, topFuel t ≤ (renderTopEntries t).length := by
  intro t
  induction t with
  | nil => simp [renderTopEntries, topFuel]
  | cons kv rest ih =>
    obtain ⟨k, ds⟩ := kv
    cases rest with
    | nil =>
      have h1 := renderDictArr_len 1 ds
      simp only [renderTopEntries, topFuel, List.length_append,
        List.length_cons] at h1 ⊢
      omega
    | cons kv2 rest2 =>
      have h1 := renderDictArr_len 1 ds
      simp only [renderTopEntries, topFuel, List.length_append,
        List.length_cons] at h1 ih ⊢
      omega

/-- The rendered document covers the whole fuel requirement. -/
theorem renderTop_len (t : TopDoc) : topFuel t + 1 ≤ (renderTop t).length := by
  cases t with
  | nil => simp [renderTop, topFuel]
  | cons kv rest =>
    have := renderTopEntries_len (kv :: rest)
    simp only [renderTop, List.length_cons, List.length_append,
      List.length_nil] at this ⊢
    omega

/-- Integer-array items parse back, under any all-whitespace lead-in. -/
theorem parseIntItems_render (lvl : Nat) :
    ∀ (l : List Int) (fuel : Nat) (ws rest : List Char),
      l ≠ [] → l.length < fuel → (∀ c ∈ ws, isWsChar c = true) →
      parseIntItems fuel
          (ws ++ (renderIntItems (lvl + 1) l ++ ('\n' :: (ind lvl ++ (']' :: rest)))))
        = some (l, rest) := by
  intro l
  induction l with
  | nil =>
    intro fuel ws rest hne
    exact absurd rfl hne
  | cons i is ih =>
    intro fuel ws rest _ hfuel hws
    obtain ⟨f, rfl⟩ : ∃ f, fuel = f + 1 := ⟨fuel - 1, by omega⟩
    obtain ⟨c0, t0, hct, hc0ws, _, _, hc0rb, _, _⟩ := intChars_head i
    have hwsall : ∀ c ∈ ws ++ ind (lvl + 1), isWsChar c = true := by
      intro c hc
      rcases List.mem_append.mp hc with hc | hc
      · exact hws c hc
      · exact ind_all_ws _ c hc
    cases is with
    | nil =>
      have hshape :
          ws ++ (renderIntItems (lvl + 1) [i] ++ ('\n' :: (ind lvl ++ (']' :: rest))))
            = (ws ++ ind (lvl + 1))
                ++ (c0 :: (t0 ++ ('\n' :: (ind lvl ++ (']' :: rest))))) := by
        simp [renderIntItems, hct, List.append_assoc]
      have hskip :
          skipWs (ws ++ (renderIntItems (lvl + 1) [i] ++ ('\n' :: (ind lvl ++ (']' :: rest)))))
            = c0 :: (t0 ++ ('\n' :: (ind lvl ++ (']' :: rest)))) := by
        rw [hshape]
        exact skipWs_to_head _ hwsall _ _ hc0ws
      have hint : parseInt (c0 :: (t0 ++ ('\n' :: (ind lvl ++ (']' :: rest)))))
          = some (i, '\n' :: (ind lvl ++ (']' :: rest))) := by
        rw [← List.cons_append, ← hct]
        exact parseInt_render i _ rfl
      have hskip2 : skipWs ('\n' :: (ind lvl ++ (']' :: rest))) = ']' :: rest := by
        have hsh : ('\n' :: (ind lvl ++ (']' :: rest)))
            = (('\n' :: ind lvl) ++ (']' :: rest)) := by simp
        rw [hsh]
        refine skipWs_to_head _ ?_ _ _ (by decide)
        intro c hc
        rcases List.mem_cons.mp hc with rfl | hc
        · decide
        · exact ind_all_ws _ c hc
      simp only [parseIntItems, hskip, if_neg hc0rb, hint, hskip2]
    | cons j js =>
      have hshape :
          ws ++ (renderIntItems (lvl + 1) (i :: j :: js) ++ ('\n' :: (ind lvl ++ (']' :: rest))))
            = (ws ++ ind (lvl + 1))
                ++ (c0 :: (t0 ++ (',' :: '\n' ::
                    (renderIntItems (lvl + 1) (j :: js)
                      ++ ('\n' :: (ind lvl ++ (']' :: rest))))))) := by
        simp [renderIntItems, hct, List.append_assoc]
      have hskip :
          skipWs (ws ++ (renderIntItems (lvl + 1) (i :: j :: js) ++ ('\n' :: (ind lvl ++ (']' :: rest)))))
            = c0 :: (t0 ++ (',' :: '\n' ::
                (renderIntItems (lvl + 1) (j :: js)
                  ++ ('\n' :: (ind lvl ++ (']' :: rest)))))) := by
        rw [hshape]
        exact skipWs_to_head _ hwsall _ _ hc0ws
      have hint : parseInt (c0 :: (t0 ++ (',' :: '\n' ::
              (renderIntItems (lvl + 1) (j :: js)
                ++ ('\n' :: (ind lvl ++ (']' :: rest)))))))
          = some (i, ',' :: '\n' ::
              (renderIntItems (lvl + 1) (j :: js)
                ++ ('\n' :: (ind lvl ++ (']' :: rest))))) := by
        rw [← List.cons_append, ← hct]
        exact parseInt_render i _ rfl
      have hrec := ih f ['\n'] rest (List.cons_ne_nil j js)
        (by simpa using Nat.lt_of_succ_lt_succ hfuel) (by intro c hc; simp at hc; subst hc; decide)
      simp only [parseIntItems, hskip, if_neg hc0rb, hint,
        skipWs_not_ws _ _ (by decide : isWsChar ',' = false)]
      have hr2 : ('\n' :: (renderIntItems (lvl + 1) (j :: js)
            ++ ('\n' :: (ind lvl ++ (']' :: rest)))))
          = ['\n'] ++ (renderIntItems (lvl + 1) (j :: js)
            ++ ('\n' :: (ind lvl ++ (']' :: rest)))) := rfl
      rw [hr2, hrec]
      rfl

/-- The integer-array codec round-trip. -/
theorem parseIntArr_render (lvl : Nat) (l : List Int) (fuel : Nat)
    (rest : List Char) (hfuel : l.length < fuel) :
    parseIntArr fuel (renderIntArr lvl l ++ rest) = some (l, rest) := by
  cases l with
  | nil =>
    obtain ⟨f, rfl⟩ : ∃ f, fuel = f + 1 := ⟨fuel - 1, by omega⟩
    have hsh : renderIntArr lvl [] ++ rest = '[' :: (']' :: rest) := rfl
    rw [hsh]
    simp only [parseIntArr, parseIntItems,
      skipWs_not_ws _ _ (by decide : isWsChar ']' = false)]
    simp
  | cons i is =>
    have hsh : renderIntArr lvl (i :: is) ++ rest
        = '[' :: (['\n'] ++ (renderIntItems (lvl + 1) (i :: is)
            ++ ('\n' :: (ind lvl ++ (']' :: rest))))) := by
      simp [renderIntArr, List.append_assoc]
    rw [hsh]
    simp only [parseIntArr]
    exact parseIntItems_render lvl (i :: is) fuel ['\n'] rest
      (List.cons_ne_nil i is) hfuel (by intro c hc; simp at hc; subst hc; decide)

/-- The flat-value codec round-trip. -/
theorem parseFlat_render (lvl fuel : Nat) (v : FlatVal) (rest : List Char)
    (hfuel : flatFuel v ≤ fuel) (hrest : nonDigitHead rest = true) :
    parseFlat fuel (renderFlat lvl v ++ rest) = some (v, rest) := by
  cases v with
  | int i =>
    obtain ⟨c0, t0, hct, _, hq, hlb, _, _, hnum⟩ := intChars_head i
    show parseFlat fuel (intChars i ++ rest) = _
    rw [hct, List.cons_append]
    simp only [parseFlat, if_neg hq, if_neg hlb, if_pos hnum]
    rw [← List.cons_append, ← hct, parseInt_render i rest hrest]
    rfl
  | str s =>
    have hsh : renderFlat lvl (.str s) ++ rest
        = '"' :: (escList s.data ++ ('"' :: rest)) := by
      simp [renderFlat, renderStr]
    rw [hsh]
    simp only [parseFlat, if_pos rfl]
    rw [strBody_escList]
    rfl
  | intList l =>
    obtain ⟨t, ht⟩ : ∃ t, renderIntArr lvl l = '[' :: t := by
      cases l with
      | nil => exact ⟨_, rfl⟩
      | cons i is => exact ⟨_, rfl⟩
    have hsh : renderFlat lvl (.intList l) ++ rest = '[' :: (t ++ rest) := by
      simp [renderFlat, ht]
    rw [hsh]
    simp only [parseFlat, if_neg (by decide : ¬('[' = '"')), if_pos rfl]
    rw [← List.cons_append, ← ht,
      parseIntArr_render lvl l fuel rest (by simp [flatFuel] at hfuel; omega)]
    rfl

/-- A rendered flat value starts with a non-whitespace character. -/
theorem renderFlat_head (lvl : Nat) (v : FlatVal) :
    ∃ c t, renderFlat lvl v = c :: t ∧ isWsChar c = false := by
  cases v with
  | int i =>
    obtain ⟨c, t, h, hws, _⟩ := intChars_head i
    exact ⟨c, t, h, hws⟩
  | str s => exact ⟨'"', _, rfl, by decide⟩
  | intList l =>
    cases l with
    | nil => exact ⟨'[', _, rfl, by decide⟩
    | cons i is => exact ⟨'[', _, rfl, by decide⟩

/-- A rendered record object starts with its opening brace. -/
theorem renderDict_head (lvl : Nat) (d : PyDict) :
    ∃ t, renderDict lvl d = '{' :: t := by
  cases d with
  | nil => exact ⟨_, rfl⟩
  | cons kv rest => exact ⟨_, rfl⟩

/-- Record members parse back, under any all-whitespace lead-in. -/
theorem parseEntries_render (lvl : Nat) :
    ∀ (d : PyDict) (fuel : Nat) (ws rest : List Char),
      d ≠ [] → entriesFuel d < fuel → (∀ c ∈ ws, isWsChar c = true) →
      parseEntries fuel
          (ws ++ (renderEntries (lvl + 1) d ++ ('\n' :: (ind lvl ++ ('}' :: rest)))))
        = some (d, rest) := by
  intro d
  induction d with
  | nil =>
    intro fuel ws rest hne
    exact absurd rfl hne
  | cons kv es ih =>
    obtain ⟨k, v⟩ := kv
    intro fuel ws rest _ hfuel hws
    obtain ⟨f, rfl⟩ : ∃ f, fuel = f + 1 := ⟨fuel - 1, by omega⟩
    have hwsall : ∀ c ∈ ws ++ ind (lvl + 1), isWsChar c = true := by
      intro c hc
      rcases List.mem_append.mp hc with hc | hc
      · exact hws c hc
      · exact ind_all_ws _ c hc
    obtain ⟨cv, tv, hcv, hcvws⟩ := renderFlat_head (lvl + 1) v
    have hffuel : flatFuel v ≤ f := by
      simp only [entriesFuel] at hfuel
      omega
    cases es with
    | nil =>
      have hshape :
          ws ++ (renderEntries (lvl + 1) [(k, v)] ++ ('\n' :: (ind lvl ++ ('}' :: rest))))
            = (ws ++ ind (lvl + 1))
                ++ ('"' :: (escList k.data ++ ('"' :: (':' :: (' ' ::
                    (renderFlat (lvl + 1) v ++ ('\n' :: (ind lvl ++ ('}' :: rest)))))))))
          := by
        simp [renderEntries, renderStr, List.append_assoc]
      have hskip := skipWs_to_head (ws ++ ind (lvl + 1)) hwsall '"'
        (escList k.data ++ ('"' :: (':' :: (' ' ::
          (renderFlat (lvl + 1) v ++ ('\n' :: (ind lvl ++ ('}' :: rest))))))))
        (by decide)
      have hkey : parseStrLit ('"' :: (escList k.data ++ ('"' :: (':' :: (' ' ::
            (renderFlat (lvl + 1) v ++ ('\n' :: (ind lvl ++ ('}' :: rest)))))))))
          = some (k, ':' :: (' ' ::
            (renderFlat (lvl + 1) v ++ ('\n' :: (ind lvl ++ ('}' :: rest)))))) := by
        have hr : renderStr k ++ (':' :: (' ' ::
            (renderFlat (lvl + 1) v ++ ('\n' :: (ind lvl ++ ('}' :: rest))))))
            = '"' :: (escList k.data ++ ('"' :: (':' :: (' ' ::
              (renderFlat (lvl + 1) v ++ ('\n' :: (ind lvl ++ ('}' :: rest)))))))) := by
          simp [renderStr]
        rw [← hr, parseStrLit_render]
      have hvskip : skipWs (' ' ::
            (renderFlat (lvl + 1) v ++ ('\n' :: (ind lvl ++ ('}' :: rest)))))
          = renderFlat (lvl + 1) v ++ ('\n' :: (ind lvl ++ ('}' :: rest))) := by
        have hsh2 : (' ' :: (renderFlat (lvl + 1) v ++ ('\n' :: (ind lvl ++ ('}' :: rest)))))
            = [' '] ++ (cv :: (tv ++ ('\n' :: (ind lvl ++ ('}' :: rest))))) := by
          simp [hcv]
        rw [hsh2, skipWs_to_head _ (by intro c hc; simp at hc; subst hc; decide) _ _ hcvws,
          ← List.cons_append, ← hcv]
      have hval := parseFlat_render (lvl + 1) f v
        ('\n' :: (ind lvl ++ ('}' :: rest))) hffuel rfl
      have hskip2 : skipWs ('\n' :: (ind lvl ++ ('}' :: rest))) = '}' :: rest := by
        have hsh3 : ('\n' :: (ind lvl ++ ('}' :: rest)))
            = (('\n' :: ind lvl) ++ ('}' :: rest)) := by simp
        rw [hsh3]
        refine skipWs_to_head _ ?_ _ _ (by decide)
        intro c hc
        rcases List.mem_cons.mp hc with rfl | hc
        · decide
        · exact ind_all_ws _ c hc
      rw [hshape]
      simp only [parseEntries, hskip, if_neg (by decide : ¬('"' = '}')), hkey,
        skipWs_not_ws _ _ (by decide : isWsChar ':' = false), hvskip, hval, hskip2]
    | cons kv2 es2 =>
      have hrestY : nonDigitHead (',' :: '\n' ::
          (renderEntries (lvl + 1) (kv2 :: es2)
            ++ ('\n' :: (ind lvl ++ ('}' :: rest))))) = true := rfl
      have hshape :
          ws ++ (renderEntries (lvl + 1) ((k, v) :: kv2 :: es2)
              ++ ('\n' :: (ind lvl ++ ('}' :: rest))))
            = (ws ++ ind (lvl + 1))
                ++ ('"' :: (escList k.data ++ ('"' :: (':' :: (' ' ::
                    (renderFlat (lvl + 1) v ++ (',' :: '\n' ::
                      (renderEntries (lvl + 1) (kv2 :: es2)
                        ++ ('\n' :: (ind lvl ++ ('}' :: rest))))))))))) := by
        simp [renderEntries, renderStr, List.append_assoc]
      have hskip := skipWs_to_head (ws ++ ind (lvl + 1)) hwsall '"'
        (escList k.data ++ ('"' :: (':' :: (' ' ::
          (renderFlat (lvl + 1) v ++ (',' :: '\n' ::
            (renderEntries (lvl + 1) (kv2 :: es2)
              ++ ('\n' :: (ind lvl ++ ('}' :: rest))))))))))
        (by decide)
      have hkey : parseStrLit ('"' :: (escList k.data ++ ('"' :: (':' :: (' ' ::
            (renderFlat (lvl + 1) v ++ (',' :: '\n' ::
              (renderEntries (lvl + 1) (kv2 :: es2)
                ++ ('\n' :: (ind lvl ++ ('}' :: rest)))))))))))
          = some (k, ':' :: (' ' ::
            (renderFlat (lvl + 1) v ++ (',' :: '\n' ::
              (renderEntries (lvl + 1) (kv2 :: es2)
                ++ ('\n' :: (ind lvl ++ ('}' :: rest)))))))) := by
        have hr : renderStr k ++ (':' :: (' ' ::
            (renderFlat (lvl + 1) v ++ (',' :: '\n' ::
              (renderEntries (lvl + 1) (kv2 :: es2)
                ++ ('\n' :: (ind lvl ++ ('}' :: rest))))))))
            = '"' :: (escList k.data ++ ('"' :: (':' :: (' ' ::
              (renderFlat (lvl + 1) v ++ (',' :: '\n' ::
                (renderEntries (lvl + 1) (kv2 :: es2)
                  ++ ('\n' :: (ind lvl ++ ('}' :: rest)))))))))) := by
          simp [renderStr]
        rw [← hr, parseStrLit_render]
      have hvskip : skipWs (' ' ::
            (renderFlat (lvl + 1) v ++ (',' :: '\n' ::
              (renderEntries (lvl + 1) (kv2 :: es2)
                ++ ('\n' :: (ind lvl ++ ('}' :: rest)))))))
          = renderFlat (lvl + 1) v ++ (',' :: '\n' ::
              (renderEntries (lvl + 1) (kv2 :: es2)
                ++ ('\n' :: (ind lvl ++ ('}' :: rest))))) := by
        have hsh2 : (' ' :: (renderFlat (lvl + 1) v ++ (',' :: '\n' ::
              (renderEntries (lvl + 1) (kv2 :: es2)
                ++ ('\n' :: (ind lvl ++ ('}' :: rest)))))))
            = [' '] ++ (cv :: (tv ++ (',' :: '\n' ::
              (renderEntries (lvl + 1) (kv2 :: es2)
                ++ ('\n' :: (ind lvl ++ ('}' :: rest))))))) := by
          simp [hcv]
        rw [hsh2, skipWs_to_head _ (by intro c hc; simp at hc; subst hc; decide) _ _ hcvws,
          ← List.cons_append, ← hcv]
      have hval := parseFlat_render (lvl + 1) f v
        (',' :: '\n' :: (renderEntries (lvl + 1) (kv2 :: es2)
          ++ ('\n' :: (ind lvl ++ ('}' :: rest))))) hffuel hrestY
      have hrec := ih f ['\n'] rest (List.cons_ne_nil kv2 es2)
        (by simp only [entriesFuel] at hfuel ⊢; omega)
        (by intro c hc; simp at hc; subst hc; decide)
      rw [hshape]
      simp only [parseEntries, hskip, if_neg (by decide : ¬('"' = '}')), hkey,
        skipWs_not_ws _ _ (by decide : isWsChar ':' = false), hvskip, hval,
        skipWs_not_ws _ _ (by decide : isWsChar ',' = false)]
      have hr2 : ('\n' :: (renderEntries (lvl + 1) (kv2 :: es2)
            ++ ('\n' :: (ind lvl ++ ('}' :: rest)))))
          = ['\n'] ++ (renderEntries (lvl + 1) (kv2 :: es2)
            ++ ('\n' :: (ind lvl ++ ('}' :: rest)))) := rfl
      rw [hr2, hrec]
      rfl

/-- The record-object codec round-trip. -/
theorem parseRec_render (lvl : Nat) (d : PyDict) (fuel : Nat) (rest : List Char)
    (hfuel : entriesFuel d < fuel) :
    parseRec fuel (renderDict lvl d ++ rest) = some (d, rest) := by
  cases d with
  | nil =>
    obtain ⟨f, rfl⟩ : ∃ f, fuel = f + 1 := ⟨fuel - 1, by omega⟩
    have hsh : renderDict lvl ([] : PyDict) ++ rest = '{' :: ('}' :: rest) := rfl
    rw [hsh]
    simp only [parseRec, parseEntries,
      skipWs_not_ws _ _ (by decide : isWsChar '}' = false)]
    simp
  | cons kv es =>
    have hsh : renderDict lvl (kv :: es) ++ rest
        = '{' :: (['\n'] ++ (renderEntries (lvl + 1) (kv :: es)
            ++ ('\n' :: (ind lvl ++ ('}' :: rest))))) := by
      simp [renderDict, List.append_assoc]
    rw [hsh]
    simp only [parseRec]
    exact parseEntries_render lvl (kv :: es) fuel ['\n'] rest
      (List.cons_ne_nil kv es) hfuel (by intro c hc; simp at hc; subst hc; decide)

/-- Record-array items parse back, under any all-whitespace lead-in. -/
theorem parseRecItems_render (lvl : Nat) :
    ∀ (ds : List PyDict) (fuel : Nat) (ws rest : List Char),
      ds ≠ [] → recsFuel ds < fuel → (∀ c ∈ ws, isWsChar c = true) →
      parseRecItems fuel
          (ws ++ (renderDictItems (lvl + 1) ds ++ ('\n' :: (ind lvl ++ (']' :: rest)))))
        = some (ds, rest) := by
  intro ds
  induction ds with
  | nil =>
    intro fuel ws rest hne
    exact absurd rfl hne
  | cons d es ih =>
    intro fuel ws rest _ hfuel hws
    obtain ⟨f, rfl⟩ : ∃ f, fuel = f + 1 := ⟨fuel - 1, by omega⟩
    have hwsall : ∀ c ∈ ws ++ ind (lvl + 1), isWsChar c = true := by
      intro c hc
      rcases List.mem_append.mp hc with hc | hc
      · exact hws c hc
      · exact ind_all_ws _ c hc
    obtain ⟨td, htd⟩ := renderDict_head (lvl + 1) d
    have hdfuel : entriesFuel d < f := by
      simp only [recsFuel] at hfuel
      omega
    cases es with
    | nil =>
      have hshape :
          ws ++ (renderDictItems (lvl + 1) [d] ++ ('\n' :: (ind lvl ++ (']' :: rest))))
            = (ws ++ ind (lvl + 1))
                ++ ('{' :: (td ++ ('\n' :: (ind lvl ++ (']' :: rest))))) := by
        simp [renderDictItems, htd, List.append_assoc]
      have hskip := skipWs_to_head (ws ++ ind (lvl + 1)) hwsall '{'
        (td ++ ('\n' :: (ind lvl ++ (']' :: rest)))) (by decide)
      have hd : parseRec f ('{' :: (td ++ ('\n' :: (ind lvl ++ (']' :: rest)))))
          = some (d, '\n' :: (ind lvl ++ (']' :: rest))) := by
        rw [← List.cons_append, ← htd]
        exact parseRec_render (lvl + 1) d f _ hdfuel
      have hskip2 : skipWs ('\n' :: (ind lvl ++ (']' :: rest))) = ']' :: rest := by
        have hsh3 : ('\n' :: (ind lvl ++ (']' :: rest)))
            = (('\n' :: ind lvl) ++ (']' :: rest)) := by simp
        rw [hsh3]
        refine skipWs_to_head _ ?_ _ _ (by decide)
        intro c hc
        rcases List.mem_cons.mp hc with rfl | hc
        · decide
        · exact ind_all_ws _ c hc
      rw [hshape]
      simp only [parseRecItems, hskip, if_neg (by decide : ¬('{' = ']')), hd, hskip2]
    | cons d2 es2 =>
      have hshape :
          ws ++ (renderDictItems (lvl + 1) (d :: d2 :: es2)
              ++ ('\n' :: (ind lvl ++ (']' :: rest))))
            = (ws ++ ind (lvl + 1))
                ++ ('{' :: (td ++ (',' :: '\n' ::
                    (renderDictItems (lvl + 1) (d2 :: es2)
                      ++ ('\n' :: (ind lvl ++ (']' :: rest))))))) := by
        simp [renderDictItems, htd, List.append_assoc]
      have hskip := skipWs_to_head (ws ++ ind (lvl + 1)) hwsall '{'
        (td ++ (',' :: '\n' ::
          (renderDictItems (lvl + 1) (d2 :: es2)
            ++ ('\n' :: (ind lvl ++ (']' :: rest)))))) (by decide)
      have hd : parseRec f ('{' :: (td ++ (',' :: '\n' ::
            (renderDictItems (lvl + 1) (d2 :: es2)
              ++ ('\n' :: (ind lvl ++ (']' :: rest)))))))
          = some (d, ',' :: '\n' ::
            (renderDictItems (lvl + 1) (d2 :: es2)
              ++ ('\n' :: (ind lvl ++ (']' :: rest))))) := by
        rw [← List.cons_append, ← htd]
        exact parseRec_render (lvl + 1) d f _ hdfuel
      have hrec := ih f ['\n'] rest (List.cons_ne_nil d2 es2)
        (by simp only [recsFuel] at hfuel ⊢; omega)
        (by intro c hc; simp at hc; subst hc; decide)
      rw [hshape]
      simp only [parseRecItems, hskip, if_neg (by decide : ¬('{' = ']')), hd,
        skipWs_not_ws _ _ (by decide : isWsChar ',' = false)]
      have hr2 : ('\n' :: (renderDictItems (lvl + 1) (d2 :: es2)
            ++ ('\n' :: (ind lvl ++ (']' :: rest)))))
          = ['\n'] ++ (renderDictItems (lvl + 1) (d2 :: es2)
            ++ ('\n' :: (ind lvl ++ (']' :: rest)))) := rfl
      rw [hr2, hrec]
      rfl

/-- The record-array codec round-trip. -/
theorem parseRecArr_render (lvl : Nat) (ds : List PyDict) (fuel : Nat)
    (rest : List Char) (hfuel : recsFuel ds < fuel) :
    parseRecArr fuel (renderDictArr lvl ds ++ rest) = some (ds, rest) := by
  cases ds with
  | nil =>
    obtain ⟨f, rfl⟩ : ∃ f, fuel = f + 1 := ⟨fuel - 1, by omega⟩
    have hsh : renderDictArr lvl [] ++ rest = '[' :: (']' :: rest) := rfl
    rw [hsh]
    simp only [parseRecArr, parseRecItems,
      skipWs_not_ws _ _ (by decide : isWsChar ']' = false)]
    simp
  | cons d es =>
    have hsh : renderDictArr lvl (d :: es) ++ rest
        = '[' :: (['\n'] ++ (renderDictItems (lvl + 1) (d :: es)
            ++ ('\n' :: (ind lvl ++ (']' :: rest))))) := by
      simp [renderDictArr, List.append_assoc]
    rw [hsh]
    simp only [parseRecArr]
    exact parseRecItems_render lvl (d :: es) fuel ['\n'] rest
      (List.cons_ne_nil d es) hfuel (by intro c hc; simp at hc; subst hc; decide)

/-- A rendered record array starts with its opening bracket. -/
theorem renderDictArr_head (lvl : Nat) (ds : List PyDict) :
    ∃ t, renderDictArr lvl ds = '[' :: t := by
  cases ds with
  | nil => exact ⟨_, rfl⟩
  | cons d es => exact ⟨_, rfl⟩

/-- Top-level members parse back, under any all-whitespace lead-in. -/
theorem parseTopEntries_render :
    ∀ (t : TopDoc) (fuel : Nat) (ws rest : List Char),
      t ≠ [] → topFuel t < fuel → (∀ c ∈ ws, isWsChar c = true) →
      parseTopEntries fuel
          (ws ++ (renderTopEntries t ++ ('\n' :: ('}' :: rest))))
        = some (t, rest) := by
  intro t
  induction t with
  | nil =>
    intro fuel ws rest hne
    exact absurd rfl hne
  | cons kv es ih =>
    obtain ⟨k, ds⟩ := kv
    intro fuel ws rest _ hfuel hws
    obtain ⟨f, rfl⟩ : ∃ f, fuel = f + 1 := ⟨fuel - 1, by omega⟩
    have hwsall : ∀ c ∈ ws ++ ind 1, isWsChar c = true := by
      intro c hc
      rcases List.mem_append.mp hc with hc | hc
      · exact hws c hc
      · exact ind_all_ws _ c hc
    obtain ⟨ta, hta⟩ := renderDictArr_head 1 ds
    have hafuel : recsFuel ds < f := by
      simp only [topFuel] at hfuel
      omega
    cases es with
    | nil =>
      have hshape :
          ws ++ (renderTopEntries [(k, ds)] ++ ('\n' :: ('}' :: rest)))
            = (ws ++ ind 1)
                ++ ('"' :: (escList k.data ++ ('"' :: (':' :: (' ' ::
                    (renderDictArr 1 ds ++ ('\n' :: ('}' :: rest)))))))) := by
        simp [renderTopEntries, renderStr, List.append_assoc]
      have hskip := skipWs_to_head (ws ++ ind 1) hwsall '"'
        (escList k.data ++ ('"' :: (':' :: (' ' ::
          (renderDictArr 1 ds ++ ('\n' :: ('}' :: rest)))))))
        (by decide)
      have hkey : parseStrLit ('"' :: (escList k.data ++ ('"' :: (':' :: (' ' ::
            (renderDictArr 1 ds ++ ('\n' :: ('}' :: rest))))))))
          = some (k, ':' :: (' ' ::
            (renderDictArr 1 ds ++ ('\n' :: ('}' :: rest))))) := by
        have hr : renderStr k ++ (':' :: (' ' ::
            (renderDictArr 1 ds ++ ('\n' :: ('}' :: rest)))))
            = '"' :: (escList k.data ++ ('"' :: (':' :: (' ' ::
              (renderDictArr 1 ds ++ ('\n' :: ('}' :: rest))))))) := by
          simp [renderStr]
        rw [← hr, parseStrLit_render]
      have hvskip : skipWs (' ' :: (renderDictArr 1 ds ++ ('\n' :: ('}' :: rest))))
          = renderDictArr 1 ds ++ ('\n' :: ('}' :: rest)) := by
        have hsh2 : (' ' :: (renderDictArr 1 ds ++ ('\n' :: ('}' :: rest))))
            = [' '] ++ ('[' :: (ta ++ ('\n' :: ('}' :: rest)))) := by
          simp [hta]
        rw [hsh2, skipWs_to_head _ (by intro c hc; simp at hc; subst hc; decide) _ _
          (by decide), ← List.cons_append, ← hta]
      have hval : parseRecArr f (renderDictArr 1 ds ++ ('\n' :: ('}' :: rest)))
          = some (ds, '\n' :: ('}' :: rest)) :=
        parseRecArr_render 1 ds f _ hafuel
      have hskip2 : skipWs ('\n' :: ('}' :: rest)) = '}' :: rest := by
        have hsh3 : ('\n' :: ('}' :: rest)) = ['\n'] ++ ('}' :: rest) := rfl
        rw [hsh3]
        exact skipWs_to_head _ (by intro c hc; simp at hc; subst hc; decide) _ _
          (by decide)
      rw [hshape]
      simp only [parseTopEntries, hskip, if_neg (by decide : ¬('"' = '}')), hkey,
        skipWs_not_ws _ _ (by decide : isWsChar ':' = false), hvskip, hval, hskip2]
    | cons kv2 es2 =>
      have hshape :
          ws ++ (renderTopEntries ((k, ds) :: kv2 :: es2) ++ ('\n' :: ('}' :: rest)))
            = (ws ++ ind 1)
                ++ ('"' :: (escList k.data ++ ('"' :: (':' :: (' ' ::
                    (renderDictArr 1 ds ++ (',' :: '\n' ::
                      (renderTopEntries (kv2 :: es2)
                        ++ ('\n' :: ('}' :: rest)))))))))) := by
        simp [renderTopEntries, renderStr, List.append_assoc]
      have hskip := skipWs_to_head (ws ++ ind 1) hwsall '"'
        (escList k.data ++ ('"' :: (':' :: (' ' ::
          (renderDictArr 1 ds ++ (',' :: '\n' ::
            (renderTopEntries (kv2 :: es2) ++ ('\n' :: ('}' :: rest)))))))))
        (by decide)
      have hkey : parseStrLit ('"' :: (escList k.data ++ ('"' :: (':' :: (' ' ::
            (renderDictArr 1 ds ++ (',' :: '\n' ::
              (renderTopEntries (kv2 :: es2) ++ ('\n' :: ('}' :: rest))))))))))
          = some (k, ':' :: (' ' ::
            (renderDictArr 1 ds ++ (',' :: '\n' ::
              (renderTopEntries (kv2 :: es2) ++ ('\n' :: ('}' :: rest))))))) := by
        have hr : renderStr k ++ (':' :: (' ' ::
            (renderDictArr 1 ds ++ (',' :: '\n' ::
              (renderTopEntries (kv2 :: es2) ++ ('\n' :: ('}' :: rest)))))))
            = '"' :: (escList k.data ++ ('"' :: (':' :: (' ' ::
              (renderDictArr 1 ds ++ (',' :: '\n' ::
                (renderTopEntries (kv2 :: es2) ++ ('\n' :: ('}' :: rest))))))))) := by
          simp [renderStr]
        rw [← hr, parseStrLit_render]
      have hvskip : skipWs (' ' :: (renderDictArr 1 ds ++ (',' :: '\n' ::
            (renderTopEntries (kv2 :: es2) ++ ('\n' :: ('}' :: rest))))))
          = renderDictArr 1 ds ++ (',' :: '\n' ::
              (renderTopEntries (kv2 :: es2) ++ ('\n' :: ('}' :: rest)))) := by
        have hsh2 : (' ' :: (renderDictArr 1 ds ++ (',' :: '\n' ::
              (renderTopEntries (kv2 :: es2) ++ ('\n' :: ('}' :: rest))))))
            = [' '] ++ ('[' :: (ta ++ (',' :: '\n' ::
              (renderTopEntries (kv2 :: es2) ++ ('\n' :: ('}' :: rest)))))) := by
          simp [hta]
        rw [hsh2, skipWs_to_head _ (by intro c hc; simp at hc; subst hc; decide) _ _
          (by decide), ← List.cons_append, ← hta]
      have hval : parseRecArr f (renderDictArr 1 ds ++ (',' :: '\n' ::
            (renderTopEntries (kv2 :: es2) ++ ('\n' :: ('}' :: rest)))))
          = some (ds, ',' :: '\n' ::
            (renderTopEntries (kv2 :: es2) ++ ('\n' :: ('}' :: rest)))) :=
        parseRecArr_render 1 ds f _ hafuel
      have hrec := ih f ['\n'] rest (List.cons_ne_nil kv2 es2)
        (by simp only [topFuel] at hfuel ⊢; omega)
        (by intro c hc; simp at hc; subst hc; decide)
      rw [hshape]
      simp only [parseTopEntries, hskip, if_neg (by decide : ¬('"' = '}')), hkey,
        skipWs_not_ws _ _ (by decide : isWsChar ':' = false), hvskip, hval,
        skipWs_not_ws _ _ (by decide : isWsChar ',' = false)]
      have hr2 : ('\n' :: (renderTopEntries (kv2 :: es2) ++ ('\n' :: ('}' :: rest))))
          = ['\n'] ++ (renderTopEntries (kv2 :: es2) ++ ('\n' :: ('}' :: rest))) := rfl
      rw [hr2, hrec]
      rfl

/-- The document codec round-trip. -/
theorem parseTop_render (t : TopDoc) (fuel : Nat) (rest : List Char)
    (hfuel : topFuel t < fuel) :
    parseTop fuel (renderTop t ++ rest) = some (t, rest) := by
  cases t with
  | nil =>
    obtain ⟨f, rfl⟩ : ∃ f, fuel = f + 1 := ⟨fuel - 1, by omega⟩
    have hsh : renderTop ([] : TopDoc) ++ rest = '{' :: ('}' :: rest) := rfl
    rw [hsh]
    simp only [parseTop, parseTopEntries,
      skipWs_not_ws _ _ (by decide : isWsChar '{' = false),
      skipWs_not_ws _ _ (by decide : isWsChar '}' = false)]
    simp
  | cons kv es =>
    have hsh : renderTop (kv :: es) ++ rest
        = '{' :: (['\n'] ++ (renderTopEntries (kv :: es)
            ++ ('\n' :: ('}' :: rest)))) := by
      simp [renderTop, List.append_assoc]
    rw [hsh]
    simp only [parseTop, skipWs_not_ws _ _ (by decide : isWsChar '{' = false)]
    exact parseTopEntries_render (kv :: es) fuel ['\n'] rest
      (List.cons_ne_nil kv es) hfuel (by intro c hc; simp at hc; subst hc; decide)

/-- Student records decode back from their serialization. -/
theorem ofDict_to_dict_student (s : Student) :
    Student.ofDict (Student.to_dict s) = some s := rfl

/-- Teacher records decode back from their serialization. -/
theorem ofDict_to_dict_teacher (t : Teacher) :
    Teacher.ofDict (Teacher.to_dict t) = some t := rfl

/-- Grade records decode back from their serialization (the optional
`comment` and `date` keys are always present in `to_dict` output, so the
defaults are not consulted). -/
theorem ofDict_to_dict_grade (today : String) (g : Grade) :
    Grade.ofDict today (Grade.to_dict g) = some g := rfl

/-- Discipline records decode back from their serialization. -/
theorem ofDict_to_dict_discipline (d : Discipline) :
    Discipline.ofDict (Discipline.to_dict d) = some d := rfl

/-- Group records decode back from their serialization. -/
theorem ofDict_to_dict_group (g : Group) :
    Group.ofDict (Group.to_dict g) = some g := rfl

/-- Decoding a serialized collection recovers it. -/
theorem decodeAll_map (dec : PyDict → Option α) (f : α → PyDict)
    (h : ∀ x, dec (f x) = some x) :
    ∀ l : List α, decodeAll dec (l.map f) = some l := by
  intro l
  induction l with
  | nil => rfl
  | cons x xs ih =>
    simp [decodeAll, h x, ih, bind, Option.bind]

/-- Reading the serialized document recovers the store state. -/
theorem decodeStore_storeDicts (today : String) (st : StoreData) :
    decodeStore today (storeDicts st) = some st := by
  have hg1 : topGet (storeDicts st) "students"
      = some (st.students.map Student.to_dict) := rfl
  have hg2 : topGet (storeDicts st) "teachers"
      = some (st.teachers.map Teacher.to_dict) := rfl
  have hg3 : topGet (storeDicts st) "disciplines"
      = some (st.disciplines.map Discipline.to_dict) := rfl
  have hg4 : topGet (storeDicts st) "grades"
      = some (st.grades.map Grade.to_dict) := rfl
  have hg5 : topGet (storeDicts st) "groups"
      = some (st.groups.map Group.to_dict) := rfl
  have h1 := decodeAll_map Student.ofDict Student.to_dict
    ofDict_to_dict_student st.students
  have h2 := decodeAll_map Teacher.ofDict Teacher.to_dict
    ofDict_to_dict_teacher st.teachers
  have h3 := decodeAll_map Discipline.ofDict Discipline.to_dict
    ofDict_to_dict_discipline st.disciplines
  have h4 := decodeAll_map (Grade.ofDict today) Grade.to_dict
    (ofDict_to_dict_grade today) st.grades
  have h5 := decodeAll_map Group.ofDict Group.to_dict
    ofDict_to_dict_group st.groups
  simp only [decodeStore, hg1, hg2, hg3, hg4, hg5, h1, h2, h3, h4, h5,
    bind, Option.bind, pure]

/-! ## Claim theorems -/

/-- C1.  For every store state and criteria, `findGrades(criteria)` returns a
grade iff it is a stored grade satisfying all active filter predicates
(logical AND): case-insensitive substring match of the student-name filter in
the resolved student's full name, case-insensitive substring match of the
discipline-name filter in the resolved discipline's name, exact equality of
the resolved discipline's semester with the semester filter, case-insensitive
exact equality of the grade's assessment type with the assessment-type
filter; a predicate whose criteria field is unset or empty is skipped, and a
grade whose `studentId` or `disciplineId` resolves to no stored record is
joined against an empty record rather than failing. -/
theorem findGrades_mem_iff (st : StoreData) (c : Search) (g : Grade) :
    g ∈ findGrades st c ↔ g ∈ st.grades ∧ specMatches st c g :=
  mem_findGradesLoop st c st.grades g

/-- C2.  With no filters set, `findGrades(Search())` returns one freshly
deserialized grade per stored record — in the decoded view, exactly the
grades collection — in original storage order with no sorting, so its
cardinality equals the collection's size. -/
theorem findGrades_empty_search (st : StoreData) :
    findGrades st Search.empty = st.grades ∧
      (findGrades st Search.empty).length = st.grades.length := by
  have h := findGradesLoop_no_filter st st.grades
  exact ⟨h, by rw [findGrades, h]⟩

/-- Dropping the records that bear a present id strictly shrinks the list. -/
theorem filter_ne_id_lt (i : Int) :
    ∀ l : List Grade, (∃ g ∈ l, g.id = i) →
      (l.filter fun g => g.id ≠ i).length < l.length := by
  intro l
  induction l with
  | nil =>
    rintro ⟨g, hg, _⟩
    exact absurd hg (List.not_mem_nil g)
  | cons a t ih =>
    rintro ⟨g, hg, hgi⟩
    rw [List.filter_cons]
    by_cases ha : a.id = i
    · rw [if_neg (by simp [ha])]
      have := List.length_filter_le (fun g => decide (g.id ≠ i)) t
      simp only [List.length_cons]
      omega
    · rw [if_pos (by simp [ha])]
      simp only [List.length_cons]
      have hex : ∃ g ∈ t, g.id = i := by
        rcases List.mem_cons.mp hg with h | h
        · subst h
          exact absurd hgi ha
        · exact ⟨g, h, hgi⟩
      have := ih hex
      omega

/-- C3.  For every valid store state — all five collections (students,
teachers, disciplines, grades, groups), including zero-length collections and
records with non-ASCII (Cyrillic, escaped, control-character) text fields —
loading the file text produced by `saveToJSON` yields a state equal to the
saved one: the renderer reproduces `json.dump(…, ensure_ascii=False,
indent=2)` for the store's document shape, and parsing and decoding that
text recovers every record exactly. -/
theorem save_load_round_trip (today : String) (st : StoreData) :
    loadFromJSON today (saveToJSON st) = some st := by
  have hdata : (saveToJSON st).data = renderTop (storeDicts st) := rfl
  have hparse : parseTop ((saveToJSON st).data.length + 1) (saveToJSON st).data
      = some (storeDicts st, []) := by
    rw [hdata]
    have hlen := renderTop_len (storeDicts st)
    have := parseTop_render (storeDicts st)
      ((renderTop (storeDicts st)).length + 1) [] (by omega)
    simpa using this
  simp only [loadFromJSON, hparse, bind, Option.bind]
  simp [skipWs, decodeStore_storeDicts]

/-- C4.  The claim says that after `Teacher.editGrade(gradeId, newValue,
comment, repo)` returns `True` for a present id, the store's grade record has
the new value and comment.  The code contradicts it (and its own docstring,
"True, если оценка найдена и обновлена"): `editGrade` mutates the fresh copy
returned by `findGrades` — never `repo._data` — and then persists the
**unchanged** store.  Evaluated at the failing input (a store holding the
single grade id 1 with value 5): the call returns `True`, yet the stored and
persisted record keeps value 5 and comment "ok" instead of 3 and "redo". -/
theorem editGrade_updates_nothing :
    (teacherA.editGrade 1 3 "redo" repoEdit).1 = true ∧
    (teacherA.editGrade 1 3 "redo" repoEdit).2.data = repoEdit.data ∧
    ((teacherA.editGrade 1 3 "redo" repoEdit).2.data.grades.map Grade.value)
      = [5] ∧
    ((teacherA.editGrade 1 3 "redo" repoEdit).2.data.grades.map Grade.comment)
      = ["ok"] ∧
    (teacherA.editGrade 1 3 "redo" repoEdit).2.file = some repoEdit.data ∧
    (teacherA.editGrade 1 3 "redo" repoEdit).2.writes = repoEdit.writes + 1 := by
  decide

/-- C5 (counterexample).  The claim says a present id is "erased exactly once
(exactly one record removed)" for **every** store state.  On a store whose
grades collection holds two records with id 1, `removeGrade(1)` removes both:
the collection drops from length 2 to length 0. -/
theorem removeGrade_removes_both_duplicates :
    (repoDup.removeGrade 1).1 = true ∧
    repoDup.data.grades.length = 2 ∧
    (repoDup.removeGrade 1).2.data.grades = [] := by
  decide

/-- C5 (amended).  `removeGrade(id)` with the id present returns true,
removes **every** record bearing that id — exactly one when the store's grade
ids are pairwise distinct, as the store invariant guarantees — and persists;
with the id absent it returns false, leaves the grades collection unchanged,
and performs no persistence call. -/
theorem removeGrade_spec (r : Repo) (i : Int) :
    ((∃ g ∈ r.data.grades, g.id = i) →
      (r.removeGrade i).1 = true ∧
      (r.removeGrade i).2.data.grades
        = (r.data.grades.filter fun g => g.id ≠ i) ∧
      (r.removeGrade i).2.writes = r.writes + 1 ∧
      (r.removeGrade i).2.file = some (r.removeGrade i).2.data) ∧
    ((r.data.grades.map Grade.id).Nodup → (∃ g ∈ r.data.grades, g.id = i) →
      (r.removeGrade i).2.data.grades.length + 1 = r.data.grades.length) ∧
    ((∀ g ∈ r.data.grades, g.id ≠ i) →
      (r.removeGrade i).1 = false ∧ (r.removeGrade i).2 = r) := by
  refine ⟨?_, ?_, ?_⟩
  · intro hpresent
    have hlt := filter_ne_id_lt i r.data.grades hpresent
    simp only [Repo.removeGrade]
    rw [if_pos hlt]
    exact ⟨rfl, rfl, rfl, rfl⟩
  · intro hnd hpresent
    have hlt := filter_ne_id_lt i r.data.grades hpresent
    have hone := filter_ne_id_length i r.data.grades hnd hpresent
    simp only [Repo.removeGrade]
    rw [if_pos hlt]
    exact hone
  · intro habsent
    have hself : (r.data.grades.filter fun g => g.id ≠ i) = r.data.grades := by
      apply List.filter_eq_self.mpr
      intro g hg
      simpa using habsent g hg
    simp only [Repo.removeGrade]
    rw [hself, if_neg (lt_irrefl _)]
    exact ⟨rfl, rfl⟩

/-- Witness for `removeGrade_spec`: at the two-grade store with ids 2 and 7,
removing the present id 2 succeeds, removes exactly one record, and persists;
removing the absent id 99 fails and leaves the store untouched. -/
theorem removeGrade_spec_witness :
    ((repoTwo.removeGrade 2).1 = true ∧
      (repoTwo.removeGrade 2).2.data.grades
        = (repoTwo.data.grades.filter fun g => g.id ≠ 2) ∧
      (repoTwo.removeGrade 2).2.writes = repoTwo.writes + 1 ∧
      (repoTwo.removeGrade 2).2.file = some (repoTwo.removeGrade 2).2.data) ∧
    (repoTwo.removeGrade 2).2.data.grades.length + 1
      = repoTwo.data.grades.length ∧
    ((repoTwo.removeGrade 99).1 = false ∧
      (repoTwo.removeGrade 99).2 = repoTwo) :=
  ⟨(removeGrade_spec repoTwo 2).1 (by decide),
   (removeGrade_spec repoTwo 2).2.1 (by decide) (by decide),
   (removeGrade_spec repoTwo 99).2.2 (by decide)⟩

/-- C6.  `nextGradeId()` returns 1 on an empty grades collection; on a
non-empty one it returns the maximum stored id plus one (the maximum is
attained by a stored grade and bounds every stored id); and the returned id
never equals an existing grade id. -/
theorem nextGradeId_spec (st : StoreData) :
    (st.grades = [] → nextGradeId st = 1) ∧
    (st.grades ≠ [] →
      ∃ g ∈ st.grades, nextGradeId st = g.id + 1 ∧
        ∀ h ∈ st.grades, h.id ≤ g.id) ∧
    (∀ g ∈ st.grades, nextGradeId st ≠ g.id) := by
  match hgr : st.grades with
  | [] =>
    refine ⟨fun _ => by simp [nextGradeId, hgr], fun h => absurd rfl h, ?_⟩
    intro g hg
    exact absurd hg (List.not_mem_nil g)
  | g :: gs =>
    have hfold : gs.foldl (fun a x => max a x.id) g.id
        = (gs.map Grade.id).foldl max g.id := by
      rw [List.foldl_map]
    obtain ⟨hseed, hbound, hattain⟩ := foldl_max_facts (gs.map Grade.id) g.id
    have hnext : nextGradeId st = (gs.map Grade.id).foldl max g.id + 1 := by
      simp only [nextGradeId, hgr, hfold]
    refine ⟨fun h => absurd h (List.cons_ne_nil g gs), fun _ => ?_, ?_⟩
    · rcases hattain with hat | hat
      · exact ⟨g, List.mem_cons_self g gs, by rw [hnext, hat], fun h hh => by
          rcases List.mem_cons.mp hh with hh | hh
          · exact le_of_eq (congrArg Grade.id hh)
          · rw [← hat]
            exact hbound h.id (List.mem_map_of_mem Grade.id hh)⟩
      · obtain ⟨g', hg', hg'id⟩ := List.mem_map.mp hat
        exact ⟨g', List.mem_cons_of_mem g hg', by rw [hnext, hg'id], fun h hh => by
          rcases List.mem_cons.mp hh with hh | hh
          · rw [hh, hg'id]
            exact hseed
          · rw [hg'id]
            exact hbound h.id (List.mem_map_of_mem Grade.id hh)⟩
    · intro h hh
      have hle : h.id ≤ (gs.map Grade.id).foldl max g.id := by
        rcases List.mem_cons.mp hh with hh | hh
        · rw [hh]
          exact hseed
        · exact hbound h.id (List.mem_map_of_mem Grade.id hh)
      rw [hnext]
      omega

/-- Witness for `nextGradeId_spec`: on the store with grade ids 2 and 7 the
next id is attained as a maximum plus one and collides with no stored id; on
the empty store it is 1. -/
theorem nextGradeId_spec_witness :
    (∃ g ∈ repoTwo.data.grades, nextGradeId repoTwo.data = g.id + 1 ∧
      ∀ h ∈ repoTwo.data.grades, h.id ≤ g.id) ∧
    (∀ g ∈ repoTwo.data.grades, nextGradeId repoTwo.data ≠ g.id) ∧
    nextGradeId storeEmpty = 1 :=
  ⟨(nextGradeId_spec repoTwo.data).2.1 (by decide),
   (nextGradeId_spec repoTwo.data).2.2,
   (nextGradeId_spec storeEmpty).1 rfl⟩

/-- Adding an already-present member is a no-op (the guard in `addStudent`). -/
theorem addStudent_mem_noop (g : Group) (s : Student)
    (h : s.id ∈ g.studentIds) : g.addStudent s = g := by
  simp [Group.addStudent, h]

/-- C8.  `Group.addStudent` keeps the membership list duplicate-free and is
idempotent: adding the same student a second time changes nothing. -/
theorem addStudent_spec (g : Group) (s : Student) :
    (g.studentIds.Nodup → (g.addStudent s).studentIds.Nodup) ∧
    (g.addStudent s).addStudent s = g.addStudent s := by
  by_cases hmem : s.id ∈ g.studentIds
  · constructor
    · intro hnd
      rw [addStudent_mem_noop g s hmem]
      exact hnd
    · rw [addStudent_mem_noop g s hmem]
      exact addStudent_mem_noop g s hmem
  · have hadd : (g.addStudent s).studentIds = g.studentIds ++ [s.id] := by
      simp [Group.addStudent, hmem]
    constructor
    · intro hnd
      rw [hadd]
      simp [List.nodup_append, hnd, hmem]
    · have hin : s.id ∈ (g.addStudent s).studentIds := by
        rw [hadd]
        exact List.mem_append_right _ (List.mem_singleton_self _)
      exact addStudent_mem_noop (g.addStudent s) s hin

/-- Witness for `addStudent_spec`: the sample group `[4, 5]` stays
duplicate-free after adding student 9, and a second add changes nothing. -/
theorem addStudent_spec_witness :
    (groupA.addStudent studentA).studentIds.Nodup ∧
    (groupA.addStudent studentA).addStudent studentA
      = groupA.addStudent studentA :=
  ⟨(addStudent_spec groupA studentA).1 (by decide),
   (addStudent_spec groupA studentA).2⟩

/-- C7.  Entity deserialization fails (with the `MissingField` error that is
the only failure the `Except` carries) exactly when a structurally required
key is absent — id, full name, email, password hash, and every
variant-specific required field — regardless of the values stored under the
present keys (no range or format validation); missing optional fields get
their documented defaults: empty comment, the current date, the empty member
list. -/
theorem from_dict_missing_field_spec (today : String) (d : PyDict) :
    ((Grade.fromDictDyn today d).isOk = true ↔
      hasKeys d ["id", "value", "assessmentType", "studentId",
        "disciplineId", "teacherId"] = true) ∧
    ((Student.fromDictDyn d).isOk = true ↔
      hasKeys d ["id", "fullName", "email", "passwordHash",
        "graduateBookNumber", "group"] = true) ∧
    ((Teacher.fromDictDyn d).isOk = true ↔
      hasKeys d ["id", "fullName", "email", "passwordHash",
        "department", "position"] = true) ∧
    ((Discipline.fromDictDyn d).isOk = true ↔
      hasKeys d ["id", "name", "semester", "assessmentType"] = true) ∧
    ((Group.fromDictDyn d).isOk = true ↔
      hasKeys d ["id", "name", "specialty", "enrollmentYear"] = true) ∧
    (∀ g, pyGet d "comment" = none → Grade.fromDictDyn today d = .ok g →
      g.comment = .str "") ∧
    (∀ g, pyGet d "date" = none → Grade.fromDictDyn today d = .ok g →
      g.date = .str today) ∧
    (∀ g, pyGet d "studentIds" = none → Group.fromDictDyn d = .ok g →
      g.studentIds = .intList []) := by
  refine ⟨?_, ?_, ?_, ?_, ?_, ?_, ?_, ?_⟩
  · simp only [Grade.fromDictDyn, pyIndex, hasKeys, List.all_cons, List.all_nil]
    cases pyGet d "id" <;> cases pyGet d "value" <;>
      cases pyGet d "assessmentType" <;> cases pyGet d "studentId" <;>
      cases pyGet d "disciplineId" <;> cases pyGet d "teacherId" <;>
      simp [Except.isOk, Except.toBool, bind, Except.bind, pure, Except.pure]
  · simp only [Student.fromDictDyn, pyIndex, hasKeys, List.all_cons, List.all_nil]
    cases pyGet d "id" <;> cases pyGet d "fullName" <;>
      cases pyGet d "email" <;> cases pyGet d "passwordHash" <;>
      cases pyGet d "graduateBookNumber" <;> cases pyGet d "group" <;>
      simp [Except.isOk, Except.toBool, bind, Except.bind, pure, Except.pure]
  · simp only [Teacher.fromDictDyn, pyIndex, hasKeys, List.all_cons, List.all_nil]
    cases pyGet d "id" <;> cases pyGet d "fullName" <;>
      cases pyGet d "email" <;> cases pyGet d "passwordHash" <;>
      cases pyGet d "department" <;> cases pyGet d "position" <;>
      simp [Except.isOk, Except.toBool, bind, Except.bind, pure, Except.pure]
  · simp only [Discipline.fromDictDyn, pyIndex, hasKeys, List.all_cons, List.all_nil]
    cases pyGet d "id" <;> cases pyGet d "name" <;>
      cases pyGet d "semester" <;> cases pyGet d "assessmentType" <;>
      simp [Except.isOk, Except.toBool, bind, Except.bind, pure, Except.pure]
  · simp only [Group.fromDictDyn, pyIndex, hasKeys, List.all_cons, List.all_nil]
    cases pyGet d "id" <;> cases pyGet d "name" <;>
      cases pyGet d "specialty" <;> cases pyGet d "enrollmentYear" <;>
      simp [Except.isOk, Except.toBool, bind, Except.bind, pure, Except.pure]
  · intro g hnone hok
    simp only [Grade.fromDictDyn, pyIndex] at hok
    rcases h1 : pyGet d "id" with _ | v1 <;>
      rcases h2 : pyGet d "value" with _ | v2 <;>
      rcases h3 : pyGet d "assessmentType" with _ | v3 <;>
      rcases h4 : pyGet d "studentId" with _ | v4 <;>
      rcases h5 : pyGet d "disciplineId" with _ | v5 <;>
      rcases h6 : pyGet d "teacherId" with _ | v6 <;>
      rw [h1, h2, h3, h4, h5, h6] at hok <;>
      simp only [bind, Except.bind, pure, Except.pure] at hok <;>
      first
        | exact Except.noConfusion hok
        | (obtain rfl := Except.ok.inj hok
           simp [hnone])
  · intro g hnone hok
    simp only [Grade.fromDictDyn, pyIndex] at hok
    rcases h1 : pyGet d "id" with _ | v1 <;>
      rcases h2 : pyGet d "value" with _ | v2 <;>
      rcases h3 : pyGet d "assessmentType" with _ | v3 <;>
      rcases h4 : pyGet d "studentId" with _ | v4 <;>
      rcases h5 : pyGet d "disciplineId" with _ | v5 <;>
      rcases h6 : pyGet d "teacherId" with _ | v6 <;>
      rw [h1, h2, h3, h4, h5, h6] at hok <;>
      simp only [bind, Except.bind, pure, Except.pure] at hok <;>
      first
        | exact Except.noConfusion hok
        | (obtain rfl := Except.ok.inj hok
           simp [hnone])
  · intro g hnone hok
    simp only [Group.fromDictDyn, pyIndex] at hok
    rcases h1 : pyGet d "id" with _ | v1 <;>
      rcases h2 : pyGet d "name" with _ | v2 <;>
      rcases h3 : pyGet d "specialty" with _ | v3 <;>
      rcases h4 : pyGet d "enrollmentYear" with _ | v4 <;>
      rw [h1, h2, h3, h4] at hok <;>
      simp only [bind, Except.bind, pure, Except.pure] at hok <;>
      first
        | exact Except.noConfusion hok
        | (obtain rfl := Except.ok.inj hok
           simp [hnone])

/-- Witness for `from_dict_missing_field_spec`: a grade dictionary with every
required key, the out-of-range value 7, and no optional keys deserializes
successfully with the default comment and date; the student dictionary with
its six required keys deserializes; the empty dictionary does not. -/
theorem from_dict_spec_witness :
    (Grade.fromDictDyn "2024-01-01" dictGradeA).isOk = true ∧
    (Student.fromDictDyn dictStudentA).isOk = true ∧
    dynGradeA.comment = .str "" ∧
    dynGradeA.date = .str "2024-01-01" ∧
    (Student.fromDictDyn ([] : PyDict)).isOk = false := by
  refine ⟨(from_dict_missing_field_spec "2024-01-01" dictGradeA).1.mpr (by decide),
    (from_dict_missing_field_spec "2024-01-01" dictStudentA).2.1.mpr (by decide),
    (from_dict_missing_field_spec "2024-01-01" dictGradeA).2.2.2.2.2.1 dynGradeA
      rfl rfl,
    (from_dict_missing_field_spec "2024-01-01" dictGradeA).2.2.2.2.2.2.1 dynGradeA
      rfl rfl, ?_⟩
  cases hcase : (Student.fromDictDyn ([] : PyDict)).isOk
  · rfl
  · exact absurd ((from_dict_missing_field_spec "2024-01-01" ([] : PyDict)).2.1.mp hcase)
      (by decide)

/-- C9.  `findGrades`, `nextGradeId`, the collection getters and the by-id
accessors are pure reads: each returns the repository exactly as it found it
— all five in-memory collections, the backing file, and the write counter
(so no file write happens). -/
theorem read_ops_frame (r : Repo) (c : Search) (i : Int) :
    (r.findGradesOp c).2 = r ∧ r.nextGradeIdOp.2 = r ∧
    r.getStudents.2 = r ∧ r.getTeachers.2 = r ∧
    r.getDisciplines.2 = r ∧ r.getGroups.2 = r ∧
    (r.getStudentById i).2 = r ∧ (r.getDisciplineById i).2 = r ∧
    (r.getTeacherById i).2 = r ∧ (r.getGradeById i).2 = r :=
  ⟨rfl, rfl, rfl, rfl, rfl, rfl, rfl, rfl, rfl, rfl⟩

/-- C10.  `addGrade(grade)` appends exactly one record — the serialization of
that grade — at the end of the grades collection, and leaves the students,
teachers, disciplines and groups collections unchanged. -/
theorem addGrade_spec (r : Repo) (g : Grade) :
    (r.addGrade g).data.grades = r.data.grades ++ [g] ∧
    ((r.addGrade g).data.grades.map Grade.to_dict
      = r.data.grades.map Grade.to_dict ++ [g.to_dict]) ∧
    (r.addGrade g).data.students = r.data.students ∧
    (r.addGrade g).data.teachers = r.data.teachers ∧
    (r.addGrade g).data.disciplines = r.data.disciplines ∧
    (r.addGrade g).data.groups = r.data.groups := by
  refine ⟨rfl, ?_, rfl, rfl, rfl, rfl⟩
  simp [Repo.addGrade, Repo.persist]

end GradeTracker
